import Mathlib

/-!
Verification of the ALICE-Text columnar encode/decode pipeline and its
queryable v3 container format.

This file is a shallow embedding, in Lean 4, of the Rust sources under
src/: the fused-regex pattern extractor (tuned_pattern_learner.rs), the
type-specialized columns and the columnar payload (columnar_encoder.rs),
the v3 container writer and metadata reader (format_v3.rs), and the typed
query engine (query_engine.rs).  Text is modelled as a list of characters
(positions count characters; the Rust code counts bytes, and the two
indexings agree on the character boundaries that all slicing happens at).
Machine integers are modelled as Nat or Int; every value manipulated by
the embedded code is far below the wrap-around points of the Rust types
involved (u64 offsets, i64 milliseconds inside the chrono-supported
date range), and the one place where a cast can truncate (u32 sizes in
directory entries) carries an explicit side condition.  Floating-point
cells (the numbers column) are carried as rationals; no theorem in this
file depends on the rounded value of a float, only on parse success or
failure, on default values, and on scans over lists whose contents are
universally quantified.

The third-party boundaries are modelled per the specification: the zstd
entropy coder is an opaque block compressor whose decode inverts encode,
and bincode transports each column losslessly; the container stage is
therefore modelled by functions that carry the serialized columns as
abstract byte lists.

The chrono parsing and formatting used for timestamps, dates and times is
embedded directly (proleptic-Gregorian civil-date arithmetic); Unicode
corner cases of Rust upper-casing and of the regex whitespace class are
modelled by their ASCII restrictions, as noted at the definitions.
-/

set_option maxRecDepth 100000

namespace AliceText

/-- Text is a list of characters. -/
abbrev Str := List Char

/-- Decidable equality of Except values, used to state reader results. -/
instance {ε α : Type} [DecidableEq ε] [DecidableEq α] : DecidableEq (Except ε α)
  | .error e, .error f =>
      if h : e = f then .isTrue (by rw [h])
      else .isFalse (fun hc => h (by cases hc; rfl))
  | .error _, .ok _ => .isFalse (fun hc => by cases hc)
  | .ok _, .error _ => .isFalse (fun hc => by cases hc)
  | .ok a, .ok b =>
      if h : a = b then .isTrue (by rw [h])
      else .isFalse (fun hc => h (by cases hc; rfl))

/-! ## Character classes used by the pattern catalog (tuned_pattern_learner.rs) -/

def isAsciiDigit (c : Char) : Bool := 48 ≤ c.toNat && c.toNat ≤ 57

def isHexDigit (c : Char) : Bool :=
  isAsciiDigit c || (97 ≤ c.toNat && c.toNat ≤ 102) || (65 ≤ c.toNat && c.toNat ≤ 70)

def isAsciiAlpha (c : Char) : Bool :=
  (97 ≤ c.toNat && c.toNat ≤ 122) || (65 ≤ c.toNat && c.toNat ≤ 90)

def isAsciiAlnum (c : Char) : Bool := isAsciiAlpha c || isAsciiDigit c

/-- ASCII whitespace; the regex crate class \s also covers the rarer Unicode
whitespace code points, which never occur in the concrete inputs treated here. -/
def isWsChar (c : Char) : Bool :=
  c.toNat = 32 || (9 ≤ c.toNat && c.toNat ≤ 13)

/-- Class [a-zA-Z0-9._%+-] of the EMAIL local part. -/
def isEmailLocalChar (c : Char) : Bool :=
  isAsciiAlnum c || c = '.' || c = '_' || c = '%' || c = '+' || c = '-'

/-- Class [a-zA-Z0-9.-] of the EMAIL domain part. -/
def isEmailDomainChar (c : Char) : Bool :=
  isAsciiAlnum c || c = '.' || c = '-'

/-- Class of one URL character after the scheme. -/
def isUrlChar (c : Char) : Bool :=
  !(isWsChar c) && c ≠ '<' && c ≠ '>' && c ≠ '"' && c ≠ '\''

/-- Class [a-zA-Z0-9._-] of one PATH segment character. -/
def isPathChar (c : Char) : Bool :=
  isAsciiAlnum c || c = '.' || c = '_' || c = '-'

def isDigitLe (hi : Nat) (c : Char) : Bool := 48 ≤ c.toNat && c.toNat ≤ 48 + hi

def isZeroOne (c : Char) : Bool := c = '0' || c = '1'

/-! ## A small regex engine

The fused extractor combines twelve concrete patterns into one
disjunction and relies on the leftmost-first (Perl-preference) match
semantics of the regex crate.  The abstract syntax below covers exactly
the combinators those twelve patterns use; repetition is restricted to
character classes plus one general one-or-more form (used by PATH), which
is given fuel bounded by the input length since its body always consumes
input.  The matcher enumerates the suffixes remaining after a match of a
prefix, in backtracking preference order, so the head of the list is the
match the engine commits to. -/

inductive Rx where
  | eps : Rx
  | chr : Char → Rx
  | cls : (Char → Bool) → Rx
  | seq : Rx → Rx → Rx
  | alt : Rx → Rx → Rx
  | starCls : (Char → Bool) → Rx
  | plusCls : (Char → Bool) → Rx

/-- Length of the longest prefix of l whose characters satisfy p. -/
def munch (p : Char → Bool) : Str → Nat
  | [] => 0
  | c :: l => if p c then munch p l + 1 else 0

/-- Suffixes l.drop k, l.drop (k-1), ..., l.drop 0: greedy star preference. -/
def greedySuffixes (l : Str) : Nat → List Str
  | 0 => [l]
  | k + 1 => l.drop (k + 1) :: greedySuffixes l k

/-- Suffixes l.drop k, ..., l.drop 1: greedy plus preference. -/
def plusSuffixes (l : Str) : Nat → List Str
  | 0 => []
  | k + 1 => l.drop (k + 1) :: plusSuffixes l k

/-- All suffixes remaining after matching a prefix of l against r, in
backtracking preference order (the committed match comes first). -/
def Rx.matches : Rx → Str → List Str
  | .eps, l => [l]
  | .chr _, [] => []
  | .chr c, d :: l => if d = c then [l] else []
  | .cls _, [] => []
  | .cls p, d :: l => if p d then [l] else []
  | .seq a b, l => (Rx.matches a l).flatMap (Rx.matches b)
  | .alt a b, l => Rx.matches a l ++ Rx.matches b l
  | .starCls p, l => greedySuffixes l (munch p l)
  | .plusCls p, l => plusSuffixes l (munch p l)

/-- Greedy option a?. -/
def Rx.opt (a : Rx) : Rx := .alt a .eps

/-- Exactly n copies of a. -/
def Rx.repN (a : Rx) : Nat → Rx
  | 0 => .eps
  | n + 1 => .seq a (a.repN n)

/-- A literal string. -/
def litStr : Str → Rx
  | [] => .eps
  | c :: l => .seq (.chr c) (litStr l)

/-- A suffix-list matcher; Rx.matches r is one, and the one-or-more
iteration of a group (used by the PATH pattern) is built from one below. -/
abbrev M := Str → List Str

/-- Greedy one-or-more iteration of a step matcher, preferring more
iterations, with fuel; each PATH iteration consumes at least one
character, so fuel equal to the input length is never exhausted. -/
def iter1 (step : M) : Nat → Str → List Str
  | 0, _ => []
  | fuel + 1, l =>
      (step l).flatMap (fun l2 =>
        if l2.length < l.length then iter1 step fuel l2 ++ [l2] else [l2])

/-- Sequencing of suffix-list matchers in preference order. -/
def mSeq (a b : M) : M := fun l => (a l).flatMap b

/-- One-or-more iteration of a matcher, fuelled by the input length. -/
def mPlus1 (step : M) : M := fun l => iter1 step (l.length + 1) l

/-- Number of characters consumed by the committed leftmost-first match of m
at the start of l, if m matches there. -/
def firstMatchLen (m : M) (l : Str) : Option Nat :=
  match m l with
  | [] => none
  | suf :: _ => some (l.length - suf.length)

/-- Concatenation of a list of regexes. -/
def rxCat : List Rx → Rx := fun rs => rs.foldr Rx.seq .eps

/-! ## Pattern catalog (tuned_pattern_learner.rs, PATTERNS) -/

/-- PatternType, with the repr(u8) numbering of the source. -/
inductive PatternType where
  | Timestamp | Date | Time | IPv4 | IPv6 | UUID | LogLevel
  | Path | URL | Number | Hex | Email | Custom
  deriving DecidableEq, Repr

def PatternType.as_u8 : PatternType → Nat
  | .Timestamp => 0 | .Date => 1 | .Time => 2 | .IPv4 => 3 | .IPv6 => 4
  | .UUID => 5 | .LogLevel => 6 | .Path => 7 | .URL => 8 | .Number => 9
  | .Hex => 10 | .Email => 11 | .Custom => 12

/-- Pattern definition: group name, matcher, destination type. -/
structure PatternDef where
  name : String
  matcher : M
  pattern_type : PatternType

def digitsN (n : Nat) : Rx := (Rx.cls isAsciiDigit).repN n

/-- Fractional seconds (?:\.\d+)? -/
def rxOptFrac : Rx := Rx.opt (.seq (.chr '.') (.plusCls isAsciiDigit))

/-- Timezone suffix (?:Z|[+-]\d{2}:?\d{2})? -/
def rxOptTz : Rx :=
  Rx.opt (.alt (.chr 'Z')
    (rxCat [.cls (fun c => c = '+' || c = '-'), digitsN 2, .opt (.chr ':'), digitsN 2]))

def rxTimestamp : Rx :=
  rxCat [digitsN 4, .chr '-', digitsN 2, .chr '-', digitsN 2,
         .cls (fun c => c = 'T' || c = ' '),
         digitsN 2, .chr ':', digitsN 2, .chr ':', digitsN 2, rxOptFrac, rxOptTz]

def hexN (n : Nat) : Rx := (Rx.cls isHexDigit).repN n

def rxUuid : Rx :=
  rxCat [hexN 8, .chr '-', hexN 4, .chr '-', hexN 4, .chr '-', hexN 4, .chr '-', hexN 12]

def rxEmail : Rx :=
  rxCat [.plusCls isEmailLocalChar, .chr '@', .plusCls isEmailDomainChar, .chr '.',
         (Rx.cls isAsciiAlpha).repN 2, .starCls isAsciiAlpha]

def rxUrl : Rx :=
  rxCat [litStr "http".data, .opt (.chr 's'), litStr "://".data, .plusCls isUrlChar]

/-- One to four hex digits, greedy. -/
def rxHex14 : Rx :=
  rxCat [.cls isHexDigit, .opt (.cls isHexDigit), .opt (.cls isHexDigit), .opt (.cls isHexDigit)]

def rxIpv6 : Rx := .seq ((Rx.seq rxHex14 (.chr ':')).repN 7) rxHex14

/-- One decimal octet 25[0-5]|2[0-4][0-9]|[01]?[0-9][0-9]? with the
alternative preference of the source pattern. -/
def rxOctet : Rx :=
  .alt (rxCat [.chr '2', .chr '5', .cls (isDigitLe 5)])
    (.alt (rxCat [.chr '2', .cls (isDigitLe 4), .cls isAsciiDigit])
      (rxCat [.opt (.cls isZeroOne), .cls isAsciiDigit, .opt (.cls isAsciiDigit)]))

def rxIpv4 : Rx := .seq ((Rx.seq rxOctet (.chr '.')).repN 3) rxOctet

def rxDate : Rx := rxCat [digitsN 4, .chr '-', digitsN 2, .chr '-', digitsN 2]

def rxTime : Rx := rxCat [digitsN 2, .chr ':', digitsN 2, .chr ':', digitsN 2, rxOptFrac]

/-- PATH (?:/[a-zA-Z0-9._-]+)+/? as a matcher (its outer plus iterates a group). -/
def mPath : M :=
  mSeq (mPlus1 (Rx.matches (.seq (.chr '/') (.plusCls isPathChar))))
    (Rx.matches (Rx.opt (.chr '/')))

def rxHexLit : Rx := rxCat [.chr '0', .chr 'x', .plusCls isHexDigit]

def rxLogLevel : Rx :=
  .alt (litStr "DEBUG".data)
    (.alt (litStr "INFO".data)
      (.alt (.seq (litStr "WARN".data) (.opt (litStr "ING".data)))
        (.alt (litStr "ERROR".data)
          (.alt (litStr "FATAL".data)
            (.alt (litStr "TRACE".data) (litStr "CRITICAL".data))))))

def rxNumber : Rx := .seq (.plusCls isAsciiDigit) rxOptFrac

/-- The twelve pattern definitions in source order, which is also the
priority order of the fused disjunction. -/
def PATTERNS : List PatternDef :=
  [⟨"TIMESTAMP", Rx.matches rxTimestamp, .Timestamp⟩,
   ⟨"UUID", Rx.matches rxUuid, .UUID⟩,
   ⟨"EMAIL", Rx.matches rxEmail, .Email⟩,
   ⟨"URL", Rx.matches rxUrl, .URL⟩,
   ⟨"IPV6", Rx.matches rxIpv6, .IPv6⟩,
   ⟨"IPV4", Rx.matches rxIpv4, .IPv4⟩,
   ⟨"DATE", Rx.matches rxDate, .Date⟩,
   ⟨"TIME", Rx.matches rxTime, .Time⟩,
   ⟨"PATH", mPath, .Path⟩,
   ⟨"HEX", Rx.matches rxHexLit, .Hex⟩,
   ⟨"LOGLEVEL", Rx.matches rxLogLevel, .LogLevel⟩,
   ⟨"NUMBER", Rx.matches rxNumber, .Number⟩]

/-! ## The fused scan (captures_iter) and find_matches -/

/-- At one position, the first pattern of the disjunction that matches, with
the end position of its committed match.  This is the leftmost-first
alternation preference of the regex crate: within one overall match the
earliest alternative wins. -/
def findAt (text : Str) (i : Nat) : Option (PatternType × Nat) :=
  (PATTERNS.filterMap (fun pd =>
    (firstMatchLen pd.matcher (text.drop i)).map (fun len => (pd.pattern_type, i + len)))).head?

/-- Scan positions upward from pos for the first one where the fused
disjunction matches (overall-leftmost preference). -/
def firstHitAux (text : Str) : Nat → Nat → Option (Nat × PatternType × Nat)
  | _, 0 => none
  | pos, fuel + 1 =>
      match findAt text pos with
      | some (pt, e) => some (pos, pt, e)
      | none => firstHitAux text (pos + 1) fuel

def firstHit (text : Str) (pos : Nat) : Option (Nat × PatternType × Nat) :=
  firstHitAux text pos (text.length + 1 - pos)

/-- The non-overlapping match stream of captures_iter on the fused regex:
each overall match is reported with the single group that matched, and the
next search resumes at the end of the previous match (every pattern of the
catalog consumes at least one character). -/
def scanFrom (text : Str) : Nat → Nat → List (Nat × PatternType × Nat)
  | _, 0 => []
  | pos, fuel + 1 =>
      match firstHit text pos with
      | none => []
      | some (s, pt, e) => (s, pt, e) :: scanFrom text e fuel

def capturesList (text : Str) : List (Nat × PatternType × Nat) :=
  scanFrom text 0 (text.length + 1)

/-- A pattern match, as in TunedMatch of the source (endPos stands for the
field named end, which Lean reserves). -/
structure TunedMatch where
  pattern_type : PatternType
  start : Nat
  endPos : Nat
  matched_text : Str
  deriving DecidableEq, Repr

/-- Does covered hold anywhere in [s, e)? -/
def anyCovered (covered : Nat → Bool) (s e : Nat) : Bool :=
  (List.range' s (e - s)).any covered

/-- Mark [s, e) covered. -/
def markCovered (covered : Nat → Bool) (s e : Nat) : Nat → Bool :=
  fun j => if s ≤ j && j < e then true else covered j

/-- The acceptance loop of find_matches: a candidate is skipped when any
position of its range is already covered, and otherwise accepted and its
range marked. -/
def findMatchesGo (text : Str) :
    List (Nat × PatternType × Nat) → (Nat → Bool) → List TunedMatch
  | [], _ => []
  | (s, pt, e) :: rest, covered =>
      if anyCovered covered s e then findMatchesGo text rest covered
      else
        { pattern_type := pt, start := s, endPos := e,
          matched_text := (text.drop s).take (e - s) } ::
          findMatchesGo text rest (markCovered covered s e)

/-- Insert x before the first element whose key is not smaller; keeps the
relative order of equal keys, as Rust sort_by_key does. -/
def insertByKey (key : α → Nat) (x : α) : List α → List α
  | [] => [x]
  | y :: l => if key y < key x then y :: insertByKey key x l else x :: y :: l

/-- Stable sort by key (the unique stable sort, hence the semantics of the
sort_by_key call in the source). -/
def sortByKey (key : α → Nat) : List α → List α
  | [] => []
  | x :: l => insertByKey key x (sortByKey key l)

/-- find_matches of TunedPatternLearner: run the fused scan, filter through
the covered bitmap, and sort the result by start position. -/
def find_matches (text : Str) : List TunedMatch :=
  sortByKey (fun m => m.start) (findMatchesGo text (capturesList text) (fun _ => false))

/-- Decimal digits of a placeholder index; the source formats indices below
ten by a single digit character and larger ones through to_string, which
agree with the decimal representation. -/
def natDigits (i : Nat) : Str := (Nat.repr i).data

/-- Skeleton construction: literal run before each match, then a numbered
placeholder, finally the tail after the last match. -/
def skeletonGo (text : Str) : List (Nat × TunedMatch) → Nat → Str
  | [], last_end => text.drop last_end
  | (i, m) :: rest, last_end =>
      (text.drop last_end).take (m.start - last_end) ++
        '{' :: (natDigits i ++ '}' :: skeletonGo text rest m.endPos)

/-- extract_skeleton of TunedPatternLearner. -/
def extract_skeleton (text : Str) : Str × List TunedMatch :=
  let ms := find_matches text
  if ms.isEmpty then (text, ms)
  else (skeletonGo text ms.enum 0, ms)

/-! ## Civil-calendar arithmetic (the chrono value model)

Proleptic-Gregorian conversions between (year, month, day) and days since
1970-01-01, as used by chrono for NaiveDate/NaiveDateTime.  The standard
era-based algorithms are used; all datetimes handled by the code lie well
inside the chrono-supported range, where i64 millisecond arithmetic
cannot wrap. -/

def isLeapYear (y : Int) : Bool :=
  (y % 4 = 0 && y % 100 ≠ 0) || y % 400 = 0

def daysInMonth (y : Int) (m : Nat) : Nat :=
  if m = 2 then (if isLeapYear y then 29 else 28)
  else if m = 4 || m = 6 || m = 9 || m = 11 then 30 else 31

/-- Days from 1970-01-01 to the civil date y-m-d. -/
def daysFromCivil (y : Int) (m d : Nat) : Int :=
  let y2 : Int := y - (if m ≤ 2 then 1 else 0)
  let era : Int := Int.fdiv y2 400
  let yoe : Nat := (y2 - era * 400).toNat
  let mp : Nat := if 2 < m then m - 3 else m + 9
  let doy : Nat := (153 * mp + 2) / 5 + (d - 1)
  let doe : Nat := yoe * 365 + yoe / 4 - yoe / 100 + doy
  era * 146097 + (doe : Int) - 719468

/-- Civil date from days since 1970-01-01. -/
def civilFromDays (z0 : Int) : Int × Nat × Nat :=
  let z : Int := z0 + 719468
  let era : Int := Int.fdiv z 146097
  let doe : Nat := (z - era * 146097).toNat
  let yoe : Nat := (doe - doe / 1460 + doe / 36524 - doe / 146096) / 365
  let doy : Nat := doe - (365 * yoe + yoe / 4 - yoe / 100)
  let mp : Nat := (5 * doy + 2) / 153
  let d : Nat := doy - (153 * mp + 2) / 5 + 1
  let m : Nat := if mp < 10 then mp + 3 else mp - 9
  let y : Int := (yoe : Int) + era * 400 + (if m ≤ 2 then 1 else 0)
  (y, m, d)

/-- Validity and value of a civil datetime, in milliseconds since the epoch.
Seconds up to 60 are accepted, as chrono parsing does for leap seconds,
whose extra second is carried into the millisecond count exactly as
timestamp_millis reports it. -/
def mkNaiveMs (y : Int) (mo d h mi s millis : Nat) : Option Int :=
  if 1 ≤ mo && mo ≤ 12 && 1 ≤ d && d ≤ daysInMonth y mo &&
      h ≤ 23 && mi ≤ 59 && s ≤ 60 then
    some ((daysFromCivil y mo d * 86400 + (h * 3600 + mi * 60 + s : Nat)) * 1000 + millis)
  else none

/-- NaiveDate range supported by chrono, about plus or minus 262000 years;
from_timestamp_millis returns None outside it.  Every concrete value in
this file is far inside. -/
def validTimestampMs (ms : Int) : Bool :=
  daysFromCivil (-262143) 1 1 * 86400000 ≤ ms &&
    ms < (daysFromCivil 262143 12 31 + 1) * 86400000

/-! ## Digit-field parsing (the chrono strftime items used by the source) -/

/-- Take up to max leading ASCII digits: value, how many, and the rest. -/
def takeDigitsUpTo : Nat → Str → Nat × Nat × Str
  | 0, l => (0, 0, l)
  | _ + 1, [] => (0, 0, [])
  | mx + 1, c :: l =>
      if isAsciiDigit c then
        let r := takeDigitsUpTo mx l
        ((c.toNat - 48) * 10 ^ r.2.1 + r.1, r.2.1 + 1, r.2.2)
      else (0, 0, c :: l)

/-- A numeric field of one to maxW digits. -/
def parseNumField (maxW : Nat) (l : Str) : Option (Nat × Str) :=
  let r := takeDigitsUpTo maxW l
  if r.2.1 = 0 then none else some (r.1, r.2.2)

def parseCh (c : Char) : Str → Option Str
  | [] => none
  | d :: l => if d = c then some l else none

/-- The %.f item: nothing when no leading dot; otherwise the dot and all
following digits (at least one), of which the first nine carry the
nanosecond value; the result is the millisecond part. -/
def parseDotF (l : Str) : Option (Nat × Str) :=
  match l with
  | '.' :: rest =>
      let r := takeDigitsUpTo 9 rest
      if r.2.1 = 0 then none
      else
        let nanos := r.1 * 10 ^ (9 - r.2.1)
        some (nanos / 1000000, r.2.2.dropWhile isAsciiDigit)
  | _ => some (0, l)

/-- The date-and-time core %Y-%m-%d{sep}%H:%M:%S shared by every timestamp
format of the source, returning the field values and the rest. -/
def parseYmdHms (sep : Char) (l : Str) :
    Option ((Nat × Nat × Nat × Nat × Nat × Nat) × Str) := do
  let (y, l) ← parseNumField 4 l
  let l ← parseCh '-' l
  let (mo, l) ← parseNumField 2 l
  let l ← parseCh '-' l
  let (d, l) ← parseNumField 2 l
  let l ← parseCh sep l
  let (h, l) ← parseNumField 2 l
  let l ← parseCh ':' l
  let (mi, l) ← parseNumField 2 l
  let l ← parseCh ':' l
  let (s, l) ← parseNumField 2 l
  some ((y, mo, d, h, mi, s), l)

/-- The %:z item: leading whitespace is trimmed, Z or z means UTC, and
otherwise a sign, two hour digits, an optional colon and two minute
digits; the resulting offset must be an admissible FixedOffset, smaller
than one day in magnitude. -/
def parseOffsetColon (l0 : Str) : Option (Int × Str) := do
  let l := l0.dropWhile (fun c => isWsChar c)
  match l with
  | 'Z' :: rest => some (0, rest)
  | 'z' :: rest => some (0, rest)
  | c :: rest =>
      if c = '+' || c = '-' then do
        let (hh, l) ← parseNumField 2 rest
        let l := (parseCh ':' l).getD l
        let (mm, l) ← parseNumField 2 l
        let t : Int := hh * 3600 + mm * 60
        let off := if c = '-' then -t else t
        if -86400 < off && off < 86400 then some (off, l) else none
      else none
  | [] => none

/-- NaiveDateTime::parse_from_str against one of the four naive formats of
the source (space or T separator, with or without %.f), millisecond value. -/
def parseNaiveFmt (idx : Nat) (l : Str) : Option Int := do
  let sep := if idx ≤ 1 then ' ' else 'T'
  let withFrac := idx = 0 || idx = 2
  let ((y, mo, d, h, mi, s), l) ← parseYmdHms sep l
  let (millis, l) ← if withFrac then parseDotF l else some (0, l)
  if l = [] then mkNaiveMs (y : Int) mo d h mi s millis else none

/-- DateTime::parse_from_str against one of the four timezone formats of the
source, giving UTC milliseconds and the parsed offset.  The two formats
that end in a literal Z carry no offset item, so chrono can never build a
DateTime from them (offset information is missing); they always fail. -/
def parseTzFmt (idx : Nat) (l : Str) : Option (Int × Int) := do
  if idx ≥ 2 then none
  else do
    let withFrac := idx = 0
    let ((y, mo, d, h, mi, s), l) ← parseYmdHms 'T' l
    let (millis, l) ← if withFrac then parseDotF l else some (0, l)
    let (off, l) ← parseOffsetColon l
    if l = [] then do
      let naive ← mkNaiveMs (y : Int) mo d h mi s millis
      some (naive - off * 1000, off)
    else none

/-! ## Formatting helpers (chrono format strings used by the source) -/

/-- Decimal digits of a natural number. -/
def natRepr (n : Nat) : Str := (Nat.repr n).data

/-- Zero-pad to two digits (%m, %d, %H, %M, %S). -/
def pad2 (n : Nat) : Str := if n < 10 then '0' :: natRepr n else natRepr n

/-- Zero-pad to four digits, with a sign for negative years (%Y). -/
def pad4 (y : Int) : Str :=
  let digits := natRepr y.natAbs
  let padded := List.replicate (4 - digits.length) '0' ++ digits
  if y < 0 then '-' :: padded else padded

/-- Format a UTC millisecond value as %Y-%m-%d{sep}%H:%M:%S. -/
def formatNaiveMs (ms : Int) (sep : Char) : Str :=
  let days := Int.fdiv ms 86400000
  let msod := (ms - days * 86400000).toNat
  let c := civilFromDays days
  pad4 c.1 ++ '-' :: pad2 c.2.1 ++ '-' :: pad2 c.2.2 ++ sep ::
    (pad2 (msod / 3600000) ++ ':' :: pad2 (msod % 3600000 / 60000) ++
      ':' :: pad2 (msod % 60000 / 1000))

/-- Format a timezone offset in seconds as %:z. -/
def formatOffsetColon (off : Int) : Str :=
  let t := off.natAbs
  (if off < 0 then '-' else '+') :: (pad2 (t / 3600) ++ ':' :: pad2 (t % 3600 / 60))

/-! ## TimestampColumn (columnar_encoder.rs) -/

inductive CachedFormatType where
  | None : CachedFormatType
  | Naive : Nat → CachedFormatType
  | Tz : Nat → CachedFormatType
  deriving DecidableEq, Repr

structure TimestampColumn where
  base : Option Str := none
  base_ms : Option Int := none
  deltas : List Int := []
  raw : List Str := []
  cached_format_idx : Option CachedFormatType := none
  last_ms : Int := 0
  base_offset_secs : Option Int := none
  deriving DecidableEq, Repr

instance : Inhabited TimestampColumn := ⟨{}⟩

/-- First index below n (counting up from i) where f yields a value. -/
def firstSomeIdx (f : Nat → Option α) : Nat → Nat → Option (Nat × α)
  | _, 0 => none
  | i, fuel + 1 =>
      match f i with
      | some a => some (i, a)
      | none => firstSomeIdx f (i + 1) fuel

/-- parse_timestamp: the cached format is tried first; on a cache miss both
format families are scanned, timezone-aware first, caching the first
success and capturing the offset for the base timestamp. -/
def TimestampColumn.parse_timestamp (c : TimestampColumn) (s : Str) :
    Option Int × TimestampColumn :=
  let cachedHit : Option (Int × TimestampColumn) :=
    match c.cached_format_idx with
    | some (.Naive idx) =>
        if idx < 4 then (parseNaiveFmt idx s).map (fun ms => (ms, c)) else none
    | some (.Tz idx) =>
        if idx < 4 then
          (parseTzFmt idx s).map (fun r =>
            (r.1, if c.base_offset_secs.isNone
                  then { c with base_offset_secs := some r.2 } else c))
        else none
    | _ => none
  match cachedHit with
  | some (ms, c2) => (some ms, c2)
  | none =>
      match firstSomeIdx (fun i => parseTzFmt i s) 0 4 with
      | some (idx, r) =>
          let c2 := { c with cached_format_idx := some (.Tz idx) }
          let c3 := if c2.base_offset_secs.isNone
                    then { c2 with base_offset_secs := some r.2 } else c2
          (some r.1, c3)
      | none =>
          match firstSomeIdx (fun i => parseNaiveFmt i s) 0 4 with
          | some (idx, ms) =>
              (some ms, { c with cached_format_idx := some (.Naive idx) })
          | none => (none, c)

/-- add: a parsed timestamp is delta-encoded (the first one becomes the
base, with delta 0); an unparsable one is pushed verbatim onto raw. -/
def TimestampColumn.add (c : TimestampColumn) (text : Str) :
    (Bool × Nat) × TimestampColumn :=
  match c.parse_timestamp text with
  | (some ts_ms, c1) =>
      let delta_idx := c1.deltas.length
      let c2 :=
        if c1.base_ms.isNone then
          { c1 with base := some text, base_ms := some ts_ms, last_ms := ts_ms,
                    deltas := c1.deltas ++ [0] }
        else
          { c1 with deltas := c1.deltas ++ [ts_ms - c1.last_ms], last_ms := ts_ms }
      ((true, delta_idx), c2)
  | (none, c1) => ((false, c1.raw.length), { c1 with raw := c1.raw ++ [text] })

/-- Running sums from a start value. -/
def prefixSumsFrom (sum : Int) : List Int → List Int
  | [] => []
  | d :: l => (sum + d) :: prefixSumsFrom (sum + d) l

/-- prepare_for_read: prefix sums of the deltas on top of the base. -/
def TimestampColumn.prepare_for_read (c : TimestampColumn) : List Int :=
  prefixSumsFrom (c.base_ms.getD 0) c.deltas

/-- get_delta: absolute milliseconds from the precomputed prefix sums,
re-emitted under the format chosen from the base text (Z-suffixed bases
re-emit in UTC; explicit offsets are applied and printed; naive bases
choose the T or space separator they used). -/
def TimestampColumn.get_delta (c : TimestampColumn) (delta_idx : Nat)
    (prefix_sums : List Int) : Option Str := do
  let base_str ← c.base
  let total_ms ← prefix_sums.get? delta_idx
  if validTimestampMs total_ms then
    match c.base_offset_secs with
    | some off =>
        if -86400 < off && off < 86400 then
          if base_str.getLast? = some 'Z' then
            some (formatNaiveMs total_ms 'T' ++ ['Z'])
          else if base_str.contains '+' || (base_str.contains '-' && base_str.length > 19) then
            some (formatNaiveMs (total_ms + off * 1000) 'T' ++ formatOffsetColon off)
          else
            some (formatNaiveMs (total_ms + off * 1000) 'T')
        else none
    | none =>
        if base_str.contains 'T' then some (formatNaiveMs total_ms 'T')
        else some (formatNaiveMs total_ms ' ')
  else none

/-- get: delta-encoded below deltas.len, raw above. -/
def TimestampColumn.get (c : TimestampColumn) (idx : Nat) : Option Str :=
  if idx < c.deltas.length then c.get_delta idx c.prepare_for_read
  else c.raw.get? (idx - c.deltas.length)

def TimestampColumn.len (c : TimestampColumn) : Nat :=
  c.deltas.length + c.raw.length

/-! ## LogLevel (columnar_encoder.rs) -/

inductive LogLevel where
  | Trace | Debug | Info | Warn | Error | Fatal | Critical | Unknown
  deriving DecidableEq, Repr

/-- The repr(u8) value (the `as u8` cast of the source). -/
def LogLevel.toU8 : LogLevel → Nat
  | .Trace => 0 | .Debug => 1 | .Info => 2 | .Warn => 3
  | .Error => 4 | .Fatal => 5 | .Critical => 6 | .Unknown => 7

/-- ASCII upper-casing; Rust to_uppercase also folds a handful of Unicode
letters onto ASCII (dotless i, long s), which is elided here. -/
def asciiUpper (c : Char) : Char :=
  if 97 ≤ c.toNat && c.toNat ≤ 122 then Char.ofNat (c.toNat - 32) else c

def LogLevel.parse_level (s : Str) : LogLevel :=
  let u := s.map asciiUpper
  if u = "TRACE".data then .Trace
  else if u = "DEBUG".data then .Debug
  else if u = "INFO".data then .Info
  else if u = "WARN".data || u = "WARNING".data then .Warn
  else if u = "ERROR".data then .Error
  else if u = "FATAL".data then .Fatal
  else if u = "CRITICAL".data then .Critical
  else .Unknown

def LogLevel.to_str : LogLevel → Str
  | .Trace => "TRACE".data | .Debug => "DEBUG".data | .Info => "INFO".data
  | .Warn => "WARN".data | .Error => "ERROR".data | .Fatal => "FATAL".data
  | .Critical => "CRITICAL".data | .Unknown => "UNKNOWN".data

def LogLevel.from_u8 (v : Nat) : LogLevel :=
  if v = 0 then .Trace else if v = 1 then .Debug else if v = 2 then .Info
  else if v = 3 then .Warn else if v = 4 then .Error else if v = 5 then .Fatal
  else if v = 6 then .Critical else .Unknown

/-! ## IPv4 (std FromStr and Display for Ipv4Addr) -/

/-- One decimal octet: one to three digits, no leading zero, at most 255. -/
def readOctet (l : Str) : Option (Nat × Str) :=
  let r := takeDigitsUpTo 3 l
  if r.2.1 = 0 then none
  else if 1 < r.2.1 && l.head? = some '0' then none
  else if 255 < r.1 then none
  else some (r.1, r.2.2)

/-- A dotted quad read from the front of the input, rest returned. -/
def parse_ipv4Partial (l : Str) : Option (Nat × Str) := do
  let (a, l) ← readOctet l
  let l ← parseCh '.' l
  let (b, l) ← readOctet l
  let l ← parseCh '.' l
  let (c, l) ← readOctet l
  let l ← parseCh '.' l
  let (d, l) ← readOctet l
  some (((a * 256 + b) * 256 + c) * 256 + d, l)

/-- parse_ipv4 of the source: the std Ipv4Addr parser, u32 value. -/
def parse_ipv4 (l : Str) : Option Nat :=
  match parse_ipv4Partial l with
  | some (v, []) => some v
  | _ => none

/-- format_ipv4 of the source: the std dotted-quad rendering. -/
def format_ipv4 (ip : Nat) : Str :=
  natRepr (ip / 2 ^ 24 % 256) ++ '.' :: natRepr (ip / 2 ^ 16 % 256) ++
    '.' :: natRepr (ip / 2 ^ 8 % 256) ++ '.' :: natRepr (ip % 256)

/-! ## UUID (columnar_encoder.rs helpers) -/

def hexVal (c : Char) : Nat :=
  if isAsciiDigit c then c.toNat - 48
  else if 97 ≤ c.toNat then c.toNat - 87
  else c.toNat - 55

/-- parse_uuid: keep the hex digits, require 32 of them, radix-16 value. -/
def parse_uuid (s : Str) : Option Nat :=
  let hx := s.filter isHexDigit
  if hx.length = 32 then some (hx.foldl (fun a c => a * 16 + hexVal c) 0) else none

def hexDigitChar (n : Nat) : Char :=
  if n < 10 then Char.ofNat (48 + n) else Char.ofNat (87 + n)

/-- Big-endian lowercase hex, zero-padded to the given width. -/
def toHexPad : Nat → Nat → Str
  | 0, _ => []
  | w + 1, v => toHexPad w (v / 16) ++ [hexDigitChar (v % 16)]

/-- format_uuid: 032x rendering with dashes at 8, 12, 16 and 20. -/
def format_uuid (u : Nat) : Str :=
  let hx := toHexPad 32 u
  hx.take 8 ++ '-' :: ((hx.drop 8).take 4 ++ '-' :: ((hx.drop 12).take 4 ++
    '-' :: ((hx.drop 16).take 4 ++ '-' :: hx.drop 20)))

/-! ## IPv6 (std FromStr and Display for Ipv6Addr) -/

/-- One hex group of one to four digits (a fifth digit fails the group). -/
def readU16Hex (l : Str) : Option (Nat × Str) :=
  let ds := l.takeWhile isHexDigit
  if ds.isEmpty || 4 < ds.length then none
  else some (ds.foldl (fun a c => a * 16 + hexVal c) 0, l.drop ds.length)

/-- The group loop of the std parser: up to the given limit of 16-bit
groups, colon-separated once started, where a final dotted quad may stand
for the last two groups; each step is atomic (a failed step leaves the
input where the step began). -/
def readGroupsGo : Nat → Bool → Str → List Nat × Bool × Str
  | 0, _, l => ([], false, l)
  | remaining + 1, needColon, l =>
      match (if needColon then parseCh ':' l else some l) with
      | none => ([], false, l)
      | some l1 =>
          let viaHex : List Nat × Bool × Str :=
            match readU16Hex l1 with
            | some (g, rest) =>
                let r := readGroupsGo remaining true rest
                (g :: r.1, r.2.1, r.2.2)
            | none => ([], false, l)
          if 2 ≤ remaining + 1 then
            match parse_ipv4Partial l1 with
            | some (v4, rest) => ([v4 / 65536, v4 % 65536], true, rest)
            | none => viaHex
          else viaHex

/-- The std Ipv6Addr parser: head groups, an optional double colon standing
for at least one zero group, tail groups, nothing left over. -/
def parse_ipv6 (l : Str) : Option Nat :=
  let h := readGroupsGo 8 false l
  let assemble (gs : List Nat) : Nat := gs.foldl (fun a g => a * 65536 + g) 0
  if h.1.length = 8 then
    if h.2.2 = [] then some (assemble h.1) else none
  else if h.2.1 then none
  else
    match parseCh ':' h.2.2 with
    | none => none
    | some l2 =>
        match parseCh ':' l2 with
        | none => none
        | some l3 =>
            let limit := 8 - (h.1.length + 1)
            let t := readGroupsGo limit false l3
            if t.2.2 = [] then
              some (assemble (h.1 ++ List.replicate (8 - h.1.length - t.1.length) 0 ++ t.1))
            else none

def ipv6Segments (ip : Nat) : List Nat :=
  (List.range 8).map (fun i => ip / 2 ^ (16 * (7 - i)) % 65536)

/-- Lowercase hex without padding (the x formatting of one segment). -/
def hexRepr (n : Nat) : Str :=
  let s := (toHexPad 4 n).dropWhile (fun c => c = '0')
  if s.isEmpty then ['0'] else s

/-- Segments joined by colons, each in bare lowercase hex. -/
def fmtSubslice (gs : List Nat) : Str :=
  match gs with
  | [] => []
  | [g] => hexRepr g
  | g :: rest => hexRepr g ++ ':' :: fmtSubslice rest

/-- The zero-span fold of the std Display implementation: the first longest
run of zero segments (a later run must be strictly longer to win). -/
def longestZeroSpan (segs : List Nat) : Nat × Nat :=
  let r := segs.foldl
    (fun (st : (Nat × Nat) × (Nat × Nat) × Nat) s =>
      let longest := st.1
      let current := st.2.1
      let i := st.2.2
      if s = 0 then
        let current := if current.2 = 0 then (i, 1) else (current.1, current.2 + 1)
        let longest := if current.2 > longest.2 then current else longest
        (longest, current, i + 1)
      else ((longest, (0, 0), i + 1)))
    ((0, 0), (0, 0), 0)
  r.1

/-- The std Ipv6Addr Display: the ipv4-mapped form is special-cased, and
otherwise the first longest run of at least two zero segments is
compressed to a double colon. -/
def format_ipv6 (ip : Nat) : Str :=
  let segs := ipv6Segments ip
  if segs.take 6 = [0, 0, 0, 0, 0, 0xffff] then
    "::ffff:".data ++ format_ipv4 (ip % 2 ^ 32)
  else
    let span := longestZeroSpan segs
    if 1 < span.2 then
      fmtSubslice (segs.take span.1) ++ ':' :: ':' ::
        fmtSubslice (segs.drop (span.1 + span.2))
    else fmtSubslice segs

/-! ## Numbers (Rust f64 parsing and the integer-preserving rendering)

Number cells are carried as unnormalized rationals holding the exact
decimal value of the parsed literal; the rounding to the nearest binary
double is not modelled, and no theorem in this file depends on a parsed
numeric value, only on parse success or failure and on the default 0
pushed on failure. -/

/-- The value model of an f64 cell: an exact fraction num / den. -/
structure F64 where
  num : Int
  den : Nat
  deriving DecidableEq, Repr

instance : OfNat F64 0 := ⟨⟨0, 1⟩⟩

def asciiLower (c : Char) : Char :=
  if 65 ≤ c.toNat && c.toNat ≤ 90 then Char.ofNat (c.toNat + 32) else c

def digitsVal (ds : Str) : Nat := ds.foldl (fun a c => a * 10 + (c.toNat - 48)) 0

/-- Exponent suffix: empty, or e/E with an optional sign and digits, which
must close the literal. -/
def parseExpPart : Str → Option Int
  | [] => some 0
  | c :: r =>
      if c = 'e' || c = 'E' then
        let (sgn, r2) : Int × Str :=
          match r with
          | '+' :: r2 => (1, r2)
          | '-' :: r2 => (-1, r2)
          | r2 => (1, r2)
        let ds := r2.takeWhile isAsciiDigit
        if ds.isEmpty || r2.drop ds.length ≠ [] then none
        else some (sgn * digitsVal ds)
      else none

/-- The Rust f64 FromStr syntax: optional sign, then inf, infinity or nan
in any case (whose non-finite values this model carries as 0), or digits
with an optional point and exponent. -/
def parseF64 (s : Str) : Option F64 := do
  let (neg, l) : Bool × Str :=
    match s with
    | '+' :: r => (false, r)
    | '-' :: r => (true, r)
    | r => (false, r)
  let lw := l.map asciiLower
  if lw = "inf".data || lw = "infinity".data || lw = "nan".data then some ⟨0, 1⟩
  else do
    let intPart := l.takeWhile isAsciiDigit
    let l1 := l.drop intPart.length
    let (fracPart, l2) ←
      match l1 with
      | '.' :: r =>
          let f := r.takeWhile isAsciiDigit
          if intPart.isEmpty && f.isEmpty then none else some (f, r.drop f.length)
      | _ => if intPart.isEmpty then none else some (([] : Str), l1)
    let e ← parseExpPart l2
    let m : Nat := digitsVal intPart * 10 ^ fracPart.length + digitsVal fracPart
    let num : Int := (if neg then -(m : Int) else (m : Int)) * (10 ^ e.toNat)
    let den : Nat := 10 ^ fracPart.length * 10 ^ (-e).toNat
    some ⟨num, den⟩

/-- Fractional decimal digits of a remainder over a denominator, with fuel;
exact for the decimal-valued fractions this file ever stores. -/
def decimalFracDigits (den : Nat) : Nat → Nat → Str
  | 0, _ => []
  | fuel + 1, rem =>
      if rem = 0 then []
      else Char.ofNat (48 + rem * 10 / den) :: decimalFracDigits den fuel (rem * 10 % den)

/-- Plain decimal rendering of a non-integer fraction (the Display fallback
branch of format_number; never evaluated by any theorem here). -/
def decimalRepr (n : F64) : Str :=
  let a := n.num.natAbs
  let frac := decimalFracDigits n.den 64 (a % n.den)
  (if n.num < 0 then ['-'] else []) ++ natRepr (a / n.den) ++
    '.' :: (if frac.isEmpty then ['0'] else frac)

/-- format_number: integral values of magnitude below i64::MAX print without
a decimal point, others through the float rendering. -/
def format_number (n : F64) : Str :=
  if n.num % (n.den : Int) = 0 && n.num.natAbs / n.den < 2 ^ 63 then
    (Int.repr (n.num / (n.den : Int))).data
  else decimalRepr n

/-! ## Dates and times (columnar_encoder.rs helpers) -/

/-- NaiveDate::parse_from_str against one of the four DATE_FORMATS. -/
def parseDateFmt (idx : Nat) (l : Str) : Option Int := do
  let sep : Char := if idx = 0 || idx = 2 then '-' else '/'
  let yFirst := idx ≤ 1
  let (a, l) ← parseNumField (if yFirst then 4 else 2) l
  let l ← parseCh sep l
  let (mo, l) ← parseNumField 2 l
  let l ← parseCh sep l
  let (b, l) ← parseNumField (if yFirst then 2 else 4) l
  if l = [] then
    let y : Int := if yFirst then a else b
    let d := if yFirst then b else a
    if 1 ≤ mo && mo ≤ 12 && 1 ≤ d && d ≤ daysInMonth y mo then
      some (daysFromCivil y mo d)
    else none
  else none

/-- parse_date_to_days: the four formats are tried in order, and a parse
that lands before the epoch falls through to the next format. -/
def parse_date_to_days (l : Str) : Option Nat :=
  (firstSomeIdx (fun i =>
    match parseDateFmt i l with
    | some days => if 0 ≤ days then some days.toNat else none
    | none => none) 0 4).map (fun r => r.2)

/-- format_date_from_days: epoch plus the day count, emitted %Y-%m-%d. -/
def format_date_from_days (days : Nat) : Str :=
  let c := civilFromDays days
  pad4 c.1 ++ '-' :: pad2 c.2.1 ++ '-' :: pad2 c.2.2

/-- NaiveTime::parse_from_str against one of the three TIME_FORMATS, as
milliseconds from midnight (leap-second parses carry their extra second
in the count, as num_milliseconds does). -/
def parseTimeFmt (idx : Nat) (l : Str) : Option Nat := do
  let (h, l) ← parseNumField 2 l
  let l ← parseCh ':' l
  let (mi, l) ← parseNumField 2 l
  let (s, millis, l) ←
    if idx ≤ 1 then do
      let l ← parseCh ':' l
      let (s, l) ← parseNumField 2 l
      let (millis, l) ← if idx = 0 then parseDotF l else some (0, l)
      some (s, millis, l)
    else some (0, 0, l)
  if l = [] && h ≤ 23 && mi ≤ 59 && s ≤ 60 then
    some ((h * 3600 + mi * 60 + s) * 1000 + millis)
  else none

/-- parse_time_to_ms: formats tried in order; a value outside one day falls
through to the next format. -/
def parse_time_to_ms (l : Str) : Option Nat :=
  (firstSomeIdx (fun i =>
    match parseTimeFmt i l with
    | some ms => if ms ≤ 86400000 then some ms else none
    | none => none) 0 3).map (fun r => r.2)

/-- format_time_from_ms: HH:MM:SS, with a millisecond suffix when nonzero. -/
def format_time_from_ms (ms : Nat) : Str :=
  let total_secs := ms / 1000
  let hours := total_secs / 3600
  let minutes := total_secs % 3600 / 60
  let seconds := total_secs % 60
  let millis := ms % 1000
  let base := pad2 hours ++ ':' :: pad2 minutes ++ ':' :: pad2 seconds
  if 0 < millis then
    base ++ '.' :: (List.replicate (3 - (natRepr millis).length) '0' ++ natRepr millis)
  else base

/-! ## ColumnarPayload (columnar_encoder.rs) -/

inductive SkeletonToken where
  | Text : Str → SkeletonToken
  | Ref : Nat → SkeletonToken
  deriving DecidableEq, Repr

/-- The digit-collection loop of parse_skeleton: consume a closing brace
and stop, or collect a digit, or stop before a non-digit (the pending
closing brace, once consumed, is not restored on a failed parse). -/
def skelCollect : Str → Str × Str
  | [] => ([], [])
  | c :: rest =>
      if c = '}' then ([], rest)
      else if isAsciiDigit c then
        let r := skelCollect rest
        (c :: r.1, r.2)
      else ([], c :: rest)

/-- u32 parsing of a digit string: nonempty, value below 2^32. -/
def parseU32 (ds : Str) : Option Nat :=
  if ds.isEmpty then none
  else if digitsVal ds < 2 ^ 32 then some (digitsVal ds) else none

/-- The main loop of parse_skeleton, fuelled by the input length (every
step consumes at least one character, so the fuel guard is unreachable
from parse_skeleton). -/
def parse_skeleton_go : Nat → Str → Str → List SkeletonToken
  | 0, l, cur => if (cur ++ l).isEmpty then [] else [.Text (cur ++ l)]
  | _ + 1, [], cur => if cur.isEmpty then [] else [.Text cur]
  | fuel + 1, c :: rest, cur =>
      if c = '{' then
        let r := skelCollect rest
        match parseU32 r.1 with
        | some idx =>
            if cur.isEmpty then .Ref idx :: parse_skeleton_go fuel r.2 []
            else .Text cur :: .Ref idx :: parse_skeleton_go fuel r.2 []
        | none => parse_skeleton_go fuel r.2 (cur ++ '{' :: r.1)
      else parse_skeleton_go fuel rest (cur ++ [c])

/-- parse_skeleton of ColumnarPayload. -/
def parse_skeleton (skeleton : Str) : List SkeletonToken :=
  parse_skeleton_go (skeleton.length + 1) skeleton []

/-- The columnar payload, struct-of-arrays; placeholder_map pairs are the
encoder-internal column tags of add_match (0 to 15). -/
structure ColumnarPayload where
  skeleton_tokens : List SkeletonToken := []
  placeholder_map : List (Nat × Nat) := []
  timestamps : TimestampColumn := {}
  ipv4_addrs : List Nat := []
  ipv6_addrs : List Nat := []
  log_levels : List Nat := []
  numbers : List F64 := []
  uuids : List Nat := []
  emails : List Str := []
  urls : List Str := []
  paths : List Str := []
  date_days : List Nat := []
  dates : List Str := []
  time_ms : List Nat := []
  times : List Str := []
  hex_values : List Str := []
  others : List Str := []
  deriving DecidableEq, Repr

/-- ColumnarPayload::new: parse the skeleton, all columns empty. -/
def ColumnarPayload.new (skeleton : Str) : ColumnarPayload :=
  { skeleton_tokens := parse_skeleton skeleton }

/-- add_match: dispatch a matched text to its column and record the
internal (column tag, index) pair in the placeholder map.  Unparsable
IPv4, number and UUID texts store the defaults 0 and 0.0; unknown log
levels store tag 7; timestamps, dates, times and IPv6 fall back to
raw-string columns. -/
def ColumnarPayload.add_match (p : ColumnarPayload) (pattern_type : PatternType)
    (text : Str) : ColumnarPayload :=
  match pattern_type with
  | .Timestamp =>
      let r := p.timestamps.add text
      let p := { p with timestamps := r.2 }
      if r.1.1 then { p with placeholder_map := p.placeholder_map ++ [(0, r.1.2)] }
      else { p with placeholder_map := p.placeholder_map ++ [(13, r.1.2)] }
  | .IPv4 =>
      let ip := (parse_ipv4 text).getD 0
      { p with ipv4_addrs := p.ipv4_addrs ++ [ip],
               placeholder_map := p.placeholder_map ++ [(1, p.ipv4_addrs.length)] }
  | .LogLevel =>
      let level := (LogLevel.parse_level text).toU8
      { p with log_levels := p.log_levels ++ [level],
               placeholder_map := p.placeholder_map ++ [(2, p.log_levels.length)] }
  | .Number =>
      let num := (parseF64 text).getD ⟨0, 1⟩
      { p with numbers := p.numbers ++ [num],
               placeholder_map := p.placeholder_map ++ [(3, p.numbers.length)] }
  | .UUID =>
      let uuid := (parse_uuid text).getD 0
      { p with uuids := p.uuids ++ [uuid],
               placeholder_map := p.placeholder_map ++ [(4, p.uuids.length)] }
  | .Email =>
      { p with emails := p.emails ++ [text],
               placeholder_map := p.placeholder_map ++ [(5, p.emails.length)] }
  | .URL =>
      { p with urls := p.urls ++ [text],
               placeholder_map := p.placeholder_map ++ [(6, p.urls.length)] }
  | .Path =>
      { p with paths := p.paths ++ [text],
               placeholder_map := p.placeholder_map ++ [(7, p.paths.length)] }
  | .Date =>
      match parse_date_to_days text with
      | some days =>
          { p with date_days := p.date_days ++ [days],
                   placeholder_map := p.placeholder_map ++ [(8, p.date_days.length)] }
      | none =>
          { p with dates := p.dates ++ [text],
                   placeholder_map := p.placeholder_map ++ [(14, p.dates.length)] }
  | .Time =>
      match parse_time_to_ms text with
      | some ms =>
          { p with time_ms := p.time_ms ++ [ms],
                   placeholder_map := p.placeholder_map ++ [(9, p.time_ms.length)] }
      | none =>
          { p with times := p.times ++ [text],
                   placeholder_map := p.placeholder_map ++ [(15, p.times.length)] }
  | .Hex =>
      { p with hex_values := p.hex_values ++ [text],
               placeholder_map := p.placeholder_map ++ [(10, p.hex_values.length)] }
  | .IPv6 =>
      match parse_ipv6 text with
      | some ip =>
          { p with ipv6_addrs := p.ipv6_addrs ++ [ip],
                   placeholder_map := p.placeholder_map ++ [(12, p.ipv6_addrs.length)] }
      | none =>
          { p with others := p.others ++ [text],
                   placeholder_map := p.placeholder_map ++ [(11, p.others.length)] }
  | .Custom =>
      { p with others := p.others ++ [text],
               placeholder_map := p.placeholder_map ++ [(11, p.others.length)] }

/-- get_value_fast: resolve one placeholder through its column; any missing
map entry, unhandled tag or out-of-range index yields none. -/
def ColumnarPayload.get_value_fast (p : ColumnarPayload) (placeholder_idx : Nat)
    (ts_prefix_sums : List Int) : Option Str := do
  let e ← p.placeholder_map.get? placeholder_idx
  let col_type := e.1
  let idx := e.2
  if col_type = 0 then p.timestamps.get_delta idx ts_prefix_sums
  else if col_type = 1 then (p.ipv4_addrs.get? idx).map format_ipv4
  else if col_type = 2 then
    (p.log_levels.get? idx).map (fun l => (LogLevel.from_u8 l).to_str)
  else if col_type = 3 then (p.numbers.get? idx).map format_number
  else if col_type = 4 then (p.uuids.get? idx).map format_uuid
  else if col_type = 5 then p.emails.get? idx
  else if col_type = 6 then p.urls.get? idx
  else if col_type = 7 then p.paths.get? idx
  else if col_type = 8 then (p.date_days.get? idx).map format_date_from_days
  else if col_type = 9 then (p.time_ms.get? idx).map format_time_from_ms
  else if col_type = 10 then p.hex_values.get? idx
  else if col_type = 11 then p.others.get? idx
  else if col_type = 12 then (p.ipv6_addrs.get? idx).map format_ipv6
  else if col_type = 13 then p.timestamps.raw.get? idx
  else if col_type = 14 then p.dates.get? idx
  else if col_type = 15 then p.times.get? idx
  else none

def ColumnarPayload.get_value (p : ColumnarPayload) (placeholder_idx : Nat) : Option Str :=
  p.get_value_fast placeholder_idx p.timestamps.prepare_for_read

/-- The token walk of restore: literals verbatim, placeholders through
get_value_fast, an unresolvable placeholder contributing nothing. -/
def restoreTokens (p : ColumnarPayload) (ts_prefix_sums : List Int) :
    List SkeletonToken → Str
  | [] => []
  | .Text t :: rest => t ++ restoreTokens p ts_prefix_sums rest
  | .Ref i :: rest =>
      ((p.get_value_fast i ts_prefix_sums).getD []) ++ restoreTokens p ts_prefix_sums rest

/-- restore of ColumnarPayload. -/
def ColumnarPayload.restore (p : ColumnarPayload) : Str :=
  restoreTokens p p.timestamps.prepare_for_read p.skeleton_tokens

/-! ## ColumnarEncoder (columnar_encoder.rs) -/

/-- encode: extract the skeleton and feed every match into the payload. -/
def ColumnarEncoder.encode (text : Str) : ColumnarPayload :=
  let r := extract_skeleton text
  r.2.foldl (fun p m => p.add_match m.pattern_type m.matched_text)
    (ColumnarPayload.new r.1)

/-- decode: restore the payload. -/
def ColumnarEncoder.decode (p : ColumnarPayload) : Str := p.restore

/-! ## Format v3 container (format_v3.rs)

Bytes are naturals below 256.  The zstd back end is the opaque block
compressor of the specification and bincode is a lossless serializer, so
the writer model carries the compressed bytes of each column as an
abstract byte list (a parameter), which fixes the directory layout
without fixing the blob contents. -/

abbrev Bytes := List Nat

/-- Little-endian bytes of a value, truncated to the given width, as the
to_le_bytes of the Rust integer of that width. -/
def toLeBytes : Nat → Nat → Bytes
  | 0, _ => []
  | w + 1, n => n % 256 :: toLeBytes w (n / 256)

/-- Little-endian value of a byte list. -/
def fromLeBytes : Bytes → Nat
  | [] => 0
  | b :: rest => b + 256 * fromLeBytes rest

/-- The magic bytes ALICETXT. -/
def ALICE_TEXT_MAGIC : Bytes := "ALICETXT".data.map Char.toNat

inductive ColumnType where
  | Skeleton | Timestamps | IPv4 | IPv6 | LogLevels | Numbers | UUIDs
  | Emails | URLs | Paths | DateDays | DatesRaw | TimeMs | TimesRaw
  | HexValues | Others | PlaceholderMap | TimestampsRaw
  deriving DecidableEq, Repr

def ColumnType.toU8 : ColumnType → Nat
  | .Skeleton => 0 | .Timestamps => 1 | .IPv4 => 2 | .IPv6 => 3
  | .LogLevels => 4 | .Numbers => 5 | .UUIDs => 6 | .Emails => 7
  | .URLs => 8 | .Paths => 9 | .DateDays => 10 | .DatesRaw => 11
  | .TimeMs => 12 | .TimesRaw => 13 | .HexValues => 14 | .Others => 15
  | .PlaceholderMap => 16 | .TimestampsRaw => 17

def ColumnType.from_u8 (v : Nat) : Option ColumnType :=
  if v = 0 then some .Skeleton else if v = 1 then some .Timestamps
  else if v = 2 then some .IPv4 else if v = 3 then some .IPv6
  else if v = 4 then some .LogLevels else if v = 5 then some .Numbers
  else if v = 6 then some .UUIDs else if v = 7 then some .Emails
  else if v = 8 then some .URLs else if v = 9 then some .Paths
  else if v = 10 then some .DateDays else if v = 11 then some .DatesRaw
  else if v = 12 then some .TimeMs else if v = 13 then some .TimesRaw
  else if v = 14 then some .HexValues else if v = 15 then some .Others
  else if v = 16 then some .PlaceholderMap else if v = 17 then some .TimestampsRaw
  else none

def ColumnType.name : ColumnType → String
  | .Skeleton => "skeleton" | .Timestamps => "timestamps" | .IPv4 => "ipv4"
  | .IPv6 => "ipv6" | .LogLevels => "log_levels" | .Numbers => "numbers"
  | .UUIDs => "uuids" | .Emails => "emails" | .URLs => "urls"
  | .Paths => "paths" | .DateDays => "date_days" | .DatesRaw => "dates_raw"
  | .TimeMs => "time_ms" | .TimesRaw => "times_raw" | .HexValues => "hex_values"
  | .Others => "others" | .PlaceholderMap => "placeholder_map"
  | .TimestampsRaw => "timestamps_raw"

/-- A column directory entry. -/
structure ColumnEntry where
  col_type : ColumnType
  offset : Nat
  compressed_size : Nat
  uncompressed_size : Nat
  row_count : Nat
  deriving DecidableEq, Repr

/-- Entry size in bytes (1 + 8 + 4 + 4 + 4). -/
def ColumnEntry.SIZE : Nat := 21

/-- to_bytes of a directory entry: tag byte, u64 offset, u32 sizes and
count, all little-endian (the casts truncate as the Rust widths do). -/
def ColumnEntry.to_bytes (e : ColumnEntry) : Bytes :=
  e.col_type.toU8 :: (toLeBytes 8 e.offset ++ toLeBytes 4 e.compressed_size ++
    toLeBytes 4 e.uncompressed_size ++ toLeBytes 4 e.row_count)

inductive ALICETextError where
  | Io : ALICETextError
  | InvalidMagic : ALICETextError
  | InvalidVersion : Nat → Nat → ALICETextError
  | DecompressionError : ALICETextError
  | EncodingError : ALICETextError
  deriving DecidableEq, Repr

/-- from_bytes of a directory entry (the length guard of the source cannot
fire on the exact 21-byte slices read_from hands over; an invalid column
tag is a DecompressionError, whose message strings this model elides). -/
def ColumnEntry.from_bytes (bytes : Bytes) : Except ALICETextError ColumnEntry :=
  if bytes.length < ColumnEntry.SIZE then .error .DecompressionError
  else
    match ColumnType.from_u8 (bytes.headD 0) with
    | none => .error .DecompressionError
    | some t =>
        .ok { col_type := t,
              offset := fromLeBytes ((bytes.drop 1).take 8),
              compressed_size := fromLeBytes ((bytes.drop 9).take 4),
              uncompressed_size := fromLeBytes ((bytes.drop 13).take 4),
              row_count := fromLeBytes ((bytes.drop 17).take 4) }

/-- The fixed 32-byte header. -/
structure FormatV3Header where
  original_length : Nat
  compression_level : Nat
  column_count : Nat
  row_count : Nat
  reserved : Bytes
  deriving DecidableEq, Repr

def FormatV3Header.SIZE : Nat := 32

def FormatV3Header.to_bytes (h : FormatV3Header) : Bytes :=
  toLeBytes 8 h.original_length ++ h.compression_level % 256 ::
    (toLeBytes 2 h.column_count ++ toLeBytes 8 h.row_count ++
      (h.reserved.take 13 ++ List.replicate (13 - h.reserved.length) 0))

def FormatV3Header.from_bytes (bytes : Bytes) : Except ALICETextError FormatV3Header :=
  if bytes.length < FormatV3Header.SIZE then .error .DecompressionError
  else
    .ok { original_length := fromLeBytes (bytes.take 8),
          compression_level := bytes.getD 8 0,
          column_count := fromLeBytes ((bytes.drop 9).take 2),
          row_count := fromLeBytes ((bytes.drop 11).take 8),
          reserved := (bytes.drop 19).take 13 }

structure FormatV3Metadata where
  header : FormatV3Header
  columns : List ColumnEntry
  deriving DecidableEq, Repr

/-- read_exact over an in-memory reader: the requested slice and the new
position, or the UnexpectedEof io error when the data runs out. -/
def readExact (data : Bytes) (pos n : Nat) : Except ALICETextError (Bytes × Nat) :=
  if pos + n ≤ data.length then .ok ((data.drop pos).take n, pos + n)
  else .error .Io

/-- The directory loop of read_from: column_count entries of 21 bytes. -/
def readEntries (data : Bytes) : Nat → Nat → Except ALICETextError (List ColumnEntry × Nat)
  | pos, 0 => .ok ([], pos)
  | pos, n + 1 => do
      let (eb, pos) ← readExact data pos ColumnEntry.SIZE
      let e ← ColumnEntry.from_bytes eb
      let (rest, pos) ← readEntries data pos n
      .ok (e :: rest, pos)

/-- FormatV3Metadata::read_from: magic, version, header, directory; no
column data is touched. -/
def FormatV3Metadata.read_from (data : Bytes) : Except ALICETextError FormatV3Metadata := do
  let (magic, pos) ← readExact data 0 8
  if magic ≠ ALICE_TEXT_MAGIC then .error .InvalidMagic
  else do
    let (version, pos) ← readExact data pos 2
    if version.headD 0 ≠ 3 then .error (.InvalidVersion (version.headD 0) (version.getD 1 0))
    else do
      let (hb, pos) ← readExact data pos FormatV3Header.SIZE
      let header ← FormatV3Header.from_bytes hb
      let (columns, _) ← readEntries data pos header.column_count
      .ok { header := header, columns := columns }

def FormatV3Metadata.get_column (m : FormatV3Metadata) (col_type : ColumnType) :
    Option ColumnEntry :=
  m.columns.find? (fun c => c.col_type = col_type)

inductive CompressionLevel where
  | Fast | Balanced | Best
  deriving DecidableEq, Repr

def CompressionLevel.toU8 : CompressionLevel → Nat
  | .Fast => 0 | .Balanced => 1 | .Best => 2

def CompressionLevel.zstd_level : CompressionLevel → Nat
  | .Fast => 3 | .Balanced => 10 | .Best => 19

/-- The 18 per-column serialization calls of compress, in source order: the
column type, its compressed blob (abstract: ser names the bytes that
bincode plus zstd produce for this payload), and its cell count.  The
add_column guard keeps a column when its serialized bytes are nonempty or
it is the skeleton or the placeholder map; bincode output is in fact
never empty, so real containers hold all 18. -/
def columnPlan (p : ColumnarPayload) (ser : ColumnType → Bytes) :
    List (ColumnType × Bytes × Nat) :=
  ([(ColumnType.Skeleton, p.skeleton_tokens.length),
    (ColumnType.PlaceholderMap, p.placeholder_map.length),
    (ColumnType.Timestamps, p.timestamps.deltas.length),
    (ColumnType.IPv4, p.ipv4_addrs.length),
    (ColumnType.IPv6, p.ipv6_addrs.length),
    (ColumnType.LogLevels, p.log_levels.length),
    (ColumnType.Numbers, p.numbers.length),
    (ColumnType.UUIDs, p.uuids.length),
    (ColumnType.Emails, p.emails.length),
    (ColumnType.URLs, p.urls.length),
    (ColumnType.Paths, p.paths.length),
    (ColumnType.DateDays, p.date_days.length),
    (ColumnType.DatesRaw, p.dates.length),
    (ColumnType.TimeMs, p.time_ms.length),
    (ColumnType.TimesRaw, p.times.length),
    (ColumnType.HexValues, p.hex_values.length),
    (ColumnType.Others, p.others.length),
    (ColumnType.TimestampsRaw, p.timestamps.raw.length)].filterMap
    (fun tc =>
      if !(ser tc.1).isEmpty || tc.1 = ColumnType.Skeleton ||
          tc.1 = ColumnType.PlaceholderMap then
        some (tc.1, ser tc.1, tc.2)
      else none))

/-- The offset computation of compress: entries are laid out at data_start
plus the running sum of the compressed sizes before them. -/
def mkEntries (data_start : Nat) : List (ColumnType × Bytes × Nat) → List ColumnEntry
  | [] => []
  | (t, blob, cnt) :: rest =>
      { col_type := t, offset := data_start, compressed_size := blob.length,
        uncompressed_size := 0, row_count := cnt } ::
        mkEntries (data_start + blob.length) rest

/-- Rust lines().count(): newline-separated lines, no phantom line after a
trailing newline. -/
def linesCount (text : Str) : Nat :=
  if text.isEmpty then 0
  else (text.count '\n') + (if text.getLast? = some '\n' then 0 else 1)

/-- The output assembly of compress: magic, version 3.0, header, the
directory entries, then the concatenated blobs in directory order. -/
def buildContainer (column_data : List (ColumnType × Bytes × Nat))
    (header : FormatV3Header) : Bytes :=
  let data_start := 42 + column_data.length * ColumnEntry.SIZE
  let entries := mkEntries data_start column_data
  ALICE_TEXT_MAGIC ++ [3, 0] ++ header.to_bytes ++
    entries.flatMap ColumnEntry.to_bytes ++
    column_data.flatMap (fun tc => tc.2.1)

/-- FormatV3Writer::compress, with the per-column compressed bytes held
abstract; the directory and layout facts proved below hold for any ser. -/
def FormatV3Writer.compress (level : CompressionLevel) (text : Str)
    (ser : ColumnType → Bytes) : Bytes :=
  let p := ColumnarEncoder.encode text
  let plan := columnPlan p ser
  buildContainer plan
    { original_length := text.length, compression_level := level.toU8,
      column_count := plan.length, row_count := linesCount text,
      reserved := List.replicate 13 0 }

/-- The value decompress computes: read_from validates the prefix, the
columns travel back through zstd and bincode unchanged (the opaque back
end inverts itself, per the specification boundary), read_all_columns
rebuilds exactly the payload that compress serialized (re-attaching the
raw timestamp strings to the timestamp column), and restore walks the
skeleton.  Composed with compress this is restore after encode. -/
def FormatV3Writer.decompressOfCompress (text : Str) : Str :=
  (ColumnarEncoder.encode text).restore

/-! ## Query engine (query_engine.rs)

The engine is modelled over the decoded contents of a container: a
PartialPayload holds an Option per readable column (present in the
directory and decoded, or absent), exactly what read_columns produces
through seek, zstd decode and bincode deserialize, which this model
treats as the lossless transport of the specification boundary. -/

inductive Op where
  | Eq | Ne | Lt | Le | Gt | Ge | Contains | StartsWith | EndsWith
  deriving DecidableEq, Repr

structure PartialPayload where
  timestamps : Option TimestampColumn := none
  ipv4_addrs : Option (List Nat) := none
  ipv6_addrs : Option (List Nat) := none
  log_levels : Option (List Nat) := none
  numbers : Option (List F64) := none
  uuids : Option (List Nat) := none
  emails : Option (List Str) := none
  urls : Option (List Str) := none
  paths : Option (List Str) := none
  deriving DecidableEq, Repr

/-- read_columns for a single column: project the one requested column out
of the container contents into a fresh partial payload (columns outside
the nine readable ones decode to nothing). -/
def read_raw_column (cols : PartialPayload) (ct : ColumnType) : PartialPayload :=
  match ct with
  | .LogLevels => { log_levels := cols.log_levels }
  | .Timestamps => { timestamps := cols.timestamps }
  | .IPv4 => { ipv4_addrs := cols.ipv4_addrs }
  | .IPv6 => { ipv6_addrs := cols.ipv6_addrs }
  | .Numbers => { numbers := cols.numbers }
  | .UUIDs => { uuids := cols.uuids }
  | .Emails => { emails := cols.emails }
  | .URLs => { urls := cols.urls }
  | .Paths => { paths := cols.paths }
  | _ => {}

/-- name_to_type of the engine. -/
def name_to_type (name : Str) : Except ALICETextError ColumnType :=
  if name = "skeleton".data then .ok .Skeleton
  else if name = "timestamps".data then .ok .Timestamps
  else if name = "ipv4".data then .ok .IPv4
  else if name = "ipv6".data then .ok .IPv6
  else if name = "log_levels".data then .ok .LogLevels
  else if name = "numbers".data then .ok .Numbers
  else if name = "uuids".data then .ok .UUIDs
  else if name = "emails".data then .ok .Emails
  else if name = "urls".data then .ok .URLs
  else if name = "paths".data then .ok .Paths
  else if name = "date_days".data then .ok .DateDays
  else if name = "dates_raw".data then .ok .DatesRaw
  else if name = "time_ms".data then .ok .TimeMs
  else if name = "times_raw".data then .ok .TimesRaw
  else if name = "hex_values".data then .ok .HexValues
  else if name = "others".data then .ok .Others
  else if name = "placeholder_map".data then .ok .PlaceholderMap
  else if name = "timestamps_raw".data then .ok .TimestampsRaw
  else .error .DecompressionError

/-- scan_primitive: indices whose cell compares true against the target;
the string operators are false on primitive columns. -/
def scan_primitive [LinearOrder α] (data : List α) (op : Op) (target : α) : List Nat :=
  (data.enum.filter (fun iv =>
    match op with
    | .Eq => decide (iv.2 = target)
    | .Ne => decide (iv.2 ≠ target)
    | .Lt => decide (iv.2 < target)
    | .Le => decide (iv.2 ≤ target)
    | .Gt => decide (target < iv.2)
    | .Ge => decide (target ≤ iv.2)
    | _ => false)).map (fun iv => iv.1)

/-- Exact difference of two cells (the model carries the subtraction of
finite doubles without rounding). -/
def F64.sub (a b : F64) : F64 := ⟨a.num * b.den - b.num * a.den, a.den * b.den⟩

/-- Magnitude below f64 EPSILON, which is 2 to the minus 52. -/
def F64.absLtEps (x : F64) : Bool := x.num.natAbs * 2 ^ 52 < x.den

def F64.ltb (a b : F64) : Bool := a.num * b.den < b.num * a.den

def F64.leb (a b : F64) : Bool := a.num * b.den ≤ b.num * a.den

/-- scan_f64: equality is absolute difference below machine epsilon. -/
def scan_f64 (data : List F64) (op : Op) (target : F64) : List Nat :=
  (data.enum.filter (fun iv =>
    match op with
    | .Eq => (iv.2.sub target).absLtEps
    | .Ne => !(iv.2.sub target).absLtEps
    | .Lt => iv.2.ltb target
    | .Le => iv.2.leb target
    | .Gt => target.ltb iv.2
    | .Ge => target.leb iv.2
    | _ => false)).map (fun iv => iv.1)

/-- Lexicographic order on strings (Rust byte order; code-point order
coincides with UTF-8 byte order). -/
def strLtb : Str → Str → Bool
  | [], [] => false
  | [], _ :: _ => true
  | _ :: _, [] => false
  | a :: as_, b :: bs =>
      if a.toNat < b.toNat then true
      else if a.toNat = b.toNat then strLtb as_ bs
      else false

def strLeb (a b : Str) : Bool := strLtb a b || a = b

/-- Substring containment (Rust str contains). -/
def isInfixOfB (t s : Str) : Bool :=
  (List.range (s.length + 1)).any (fun i => List.isPrefixOf t (s.drop i))

/-- scan_strings: canonical string comparisons, plus the substring family. -/
def scan_strings (data : List Str) (op : Op) (target : Str) : List Nat :=
  (data.enum.filter (fun iv =>
    match op with
    | .Eq => decide (iv.2 = target)
    | .Ne => decide (iv.2 ≠ target)
    | .Lt => strLtb iv.2 target
    | .Le => strLeb iv.2 target
    | .Gt => strLtb target iv.2
    | .Ge => strLeb target iv.2
    | .Contains => isInfixOfB target iv.2
    | .StartsWith => List.isPrefixOf target iv.2
    | .EndsWith => List.isSuffixOf target iv.2)).map (fun iv => iv.1)

/-- The engine value parsers, erroring like the source (messages elided). -/
def engineParseIpv4 (s : Str) : Except ALICETextError Nat :=
  match parse_ipv4 s with
  | some v => .ok v
  | none => .error .DecompressionError

def engineParseIpv6 (s : Str) : Except ALICETextError Nat :=
  match parse_ipv6 s with
  | some v => .ok v
  | none => .error .DecompressionError

def engineParseUuid (s : Str) : Except ALICETextError Nat :=
  match parse_uuid s with
  | some v => .ok v
  | none => .error .DecompressionError

/-- parse_query_timestamp: the five listed formats in order (the bare-date
NaiveDateTime format can never build a datetime and the fraction formats
are shadowed by the fraction-free ones only when the fraction is absent),
then the date-only fallback at midnight. -/
def parse_query_timestamp (s : Str) : Except ALICETextError Int :=
  match firstSomeIdx (fun i => parseNaiveFmt ([1, 3, 0, 2].getD i 0) s) 0 4 with
  | some (_, ms) => .ok ms
  | none =>
      match parseDateFmt 0 s with
      | some days => .ok (days * 86400000)
      | none => .error .DecompressionError

/-- log_level_strings of PartialPayload (the inline byte-to-name table,
which agrees with from_u8 composed with to_str). -/
def log_level_strings (levels : List Nat) : List Str :=
  levels.map (fun l => (LogLevel.from_u8 l).to_str)

/-- timestamp_strings of PartialPayload: every delta index that get_delta
can render. -/
def timestamp_strings (ts : TimestampColumn) : List Str :=
  let prefix_sums := ts.prepare_for_read
  (List.range ts.deltas.length).filterMap (fun i => ts.get_delta i prefix_sums)

/-- Canonical strings of one decoded column (the method the source calls
with a prefix of the payload name and to underscore strings); absent or
non-readable columns give the empty list. -/
def stringsOfColumn (part : PartialPayload) (col_type : ColumnType) : List Str :=
  match col_type with
  | .LogLevels => (part.log_levels.map log_level_strings).getD []
  | .IPv4 => ((part.ipv4_addrs.map (fun l => l.map format_ipv4))).getD []
  | .IPv6 => ((part.ipv6_addrs.map (fun l => l.map format_ipv6))).getD []
  | .Timestamps => (part.timestamps.map timestamp_strings).getD []
  | .Numbers => ((part.numbers.map (fun l => l.map format_number))).getD []
  | .UUIDs => ((part.uuids.map (fun l => l.map format_uuid))).getD []
  | .Emails => part.emails.getD []
  | .URLs => part.urls.getD []
  | .Paths => part.paths.getD []
  | _ => []

/-- filter_op of the query engine: typed dispatch on the column tag.  The
log-level parser is total (unknown words become the UNKNOWN tag) and a
number that fails to parse becomes 0.0, so only ipv4, ipv6, uuids and
timestamps can reject a filter value. -/
def filter_op (cols : PartialPayload) (column : Str) (op : Op) (value : Str) :
    Except ALICETextError (List Nat) := do
  let col_type ← name_to_type column
  let part := read_raw_column cols col_type
  match col_type with
  | .LogLevels =>
      let target := (LogLevel.parse_level value).toU8
      match part.log_levels with
      | some data => .ok (scan_primitive data op target)
      | none => .ok []
  | .IPv4 => do
      let target ← engineParseIpv4 value
      match part.ipv4_addrs with
      | some data => .ok (scan_primitive data op target)
      | none => .ok []
  | .IPv6 => do
      let target ← engineParseIpv6 value
      match part.ipv6_addrs with
      | some data => .ok (scan_primitive data op target)
      | none => .ok []
  | .Numbers =>
      let target := (parseF64 value).getD ⟨0, 1⟩
      match part.numbers with
      | some data => .ok (scan_f64 data op target)
      | none => .ok []
  | .UUIDs => do
      let target ← engineParseUuid value
      match part.uuids with
      | some data => .ok (scan_primitive data op target)
      | none => .ok []
  | .Timestamps => do
      let target_ms ← parse_query_timestamp value
      match part.timestamps with
      | some ts_col => .ok (scan_primitive ts_col.prepare_for_read op target_ms)
      | none => .ok []
  | _ => .ok (scan_strings (stringsOfColumn part col_type) op value)

/-! ## Claim C1: round trip -/

/-- C1: the round trip is not the identity on every valid UTF-8 string.
On the two-character input of an opening brace followed by a closing
brace the extractor finds no match, the skeleton equals the input, and
parse_skeleton consumes the closing brace while rejecting the empty
placeholder number without restoring it, so the container decompresses to
the opening brace alone, at every compression level (the level only
parameterizes the opaque block compressor). -/
theorem c1_roundtrip_loses_brace :
    FormatV3Writer.decompressOfCompress ['{', '}'] = ['{'] ∧
      (['{'] : Str) ≠ ['{', '}'] := by decide

/-! ## Claim C9: the log-line scenario -/

def c9Input : Str := "2024-01-15 10:30:45 INFO User logged in from 192.168.1.100".data

/-- C9 counterexample: encoding the scenario line yields the placeholder
map of the encoder-internal tag space, (0,0) then (2,0) then (1,0), not
the file-directory tags 1, 4 and 2 the claim names. -/
theorem c9_placeholder_tags_internal :
    (ColumnarEncoder.encode c9Input).placeholder_map = [(0, 0), (2, 0), (1, 0)] ∧
      (ColumnarEncoder.encode c9Input).placeholder_map ≠ [(1, 0), (4, 0), (2, 0)] := by
  decide

/-- C9 amended: the scenario line produces three placeholders in the
encoder-internal tag space: the timestamp under internal tag 0 at index 0
(base 1705314645000 ms), the log level under internal tag 2 at index 0
with stored cell value 2, and the IPv4 under internal tag 1 at index 0
with stored cell value 0xC0A80164; the cells reach the file columns
Timestamps (1), LogLevels (4) and IPv4 (2) of the directory. -/
theorem c9_scenario_cells :
    (ColumnarEncoder.encode c9Input).placeholder_map = [(0, 0), (2, 0), (1, 0)] ∧
      (ColumnarEncoder.encode c9Input).log_levels = [2] ∧
      (ColumnarEncoder.encode c9Input).ipv4_addrs = [0xC0A80164] ∧
      (ColumnarEncoder.encode c9Input).timestamps.base_ms = some 1705314645000 := by
  decide

/-! ## Claim C7: fallback behaviour of add_match -/

/-- C7 counterexample: a Number match whose text does not parse as f64 is
replaced by the default 0.0 in the numbers column; the text is stored
verbatim nowhere (every raw-string column stays empty). -/
theorem c7_number_default_not_fallback :
    (((ColumnarPayload.new []).add_match .Number "abc".data).numbers = [⟨0, 1⟩]) ∧
      ((ColumnarPayload.new []).add_match .Number "abc".data).placeholder_map = [(3, 0)] ∧
      ((ColumnarPayload.new []).add_match .Number "abc".data).others = [] ∧
      ((ColumnarPayload.new []).add_match .Number "abc".data).emails = [] ∧
      ((ColumnarPayload.new []).add_match .Number "abc".data).urls = [] ∧
      ((ColumnarPayload.new []).add_match .Number "abc".data).paths = [] ∧
      ((ColumnarPayload.new []).add_match .Number "abc".data).hex_values = [] ∧
      ((ColumnarPayload.new []).add_match .Number "abc".data).dates = [] ∧
      ((ColumnarPayload.new []).add_match .Number "abc".data).times = [] ∧
      ((ColumnarPayload.new []).add_match .Number "abc".data).timestamps.raw = [] ∧
      parseF64 "abc".data = none := by decide

/-- C7 amended: encoding is total, and raw-string fallbacks exist exactly
for Timestamp, Date, Time and IPv6 matches (the matched text is stored
verbatim in timestamps.raw, dates, times and others respectively when the
typed parse fails), while Email, URL, Path, Hex and Custom matches are
stored verbatim unconditionally; an IPv4, Number or UUID match that fails
its typed parse is stored as the default 0 or 0.0 in its primitive
column, and an unrecognized log level is stored as tag 7. -/
theorem c7_fallback_behaviour (p : ColumnarPayload) (text : Str) :
    ((p.timestamps.parse_timestamp text).1 = none →
        ((p.add_match .Timestamp text).timestamps.raw = p.timestamps.raw ++ [text] ∧
          (p.add_match .Timestamp text).placeholder_map =
            p.placeholder_map ++ [(13, p.timestamps.raw.length)])) ∧
    (parse_date_to_days text = none →
        (p.add_match .Date text).dates = p.dates ++ [text]) ∧
    (parse_time_to_ms text = none →
        (p.add_match .Time text).times = p.times ++ [text]) ∧
    (parse_ipv6 text = none →
        (p.add_match .IPv6 text).others = p.others ++ [text]) ∧
    ((p.add_match .Email text).emails = p.emails ++ [text]) ∧
    ((p.add_match .URL text).urls = p.urls ++ [text]) ∧
    ((p.add_match .Path text).paths = p.paths ++ [text]) ∧
    ((p.add_match .Hex text).hex_values = p.hex_values ++ [text]) ∧
    ((p.add_match .Custom text).others = p.others ++ [text]) ∧
    (parse_ipv4 text = none →
        (p.add_match .IPv4 text).ipv4_addrs = p.ipv4_addrs ++ [0]) ∧
    (parseF64 text = none →
        (p.add_match .Number text).numbers = p.numbers ++ [⟨0, 1⟩]) ∧
    (parse_uuid text = none →
        (p.add_match .UUID text).uuids = p.uuids ++ [0]) ∧
    (LogLevel.parse_level text = .Unknown →
        (p.add_match .LogLevel text).log_levels = p.log_levels ++ [7]) := by
  refine ⟨?_, ?_, ?_, ?_, ?_, ?_, ?_, ?_, ?_, ?_, ?_, ?_, ?_⟩
  · intro h
    simp only [ColumnarPayload.add_match, TimestampColumn.add]
    rcases hp : p.timestamps.parse_timestamp text with ⟨r, c1⟩
    have hr : r = none := by rw [hp] at h; exact h
    subst hr
    have hraw : c1.raw = p.timestamps.raw := by
      simp only [TimestampColumn.parse_timestamp] at hp
      rcases hc : p.timestamps.cached_format_idx with _ | cf
      · rw [hc] at hp
        simp only at hp
        rcases h4 : firstSomeIdx (fun i => parseTzFmt i text) 0 4 with _ | v <;>
          rw [h4] at hp <;> simp only at hp
        · rcases h5 : firstSomeIdx (fun i => parseNaiveFmt i text) 0 4 with _ | w <;>
            rw [h5] at hp <;> simp only at hp
          · cases hp; rfl
          · cases hp
        · cases hp
      · rw [hc] at hp
        cases cf with
        | None =>
            simp only at hp
            rcases h4 : firstSomeIdx (fun i => parseTzFmt i text) 0 4 with _ | v <;>
              rw [h4] at hp <;> simp only at hp
            · rcases h5 : firstSomeIdx (fun i => parseNaiveFmt i text) 0 4 with _ | w <;>
                rw [h5] at hp <;> simp only at hp
              · cases hp; rfl
              · cases hp
            · cases hp
        | Naive idx =>
            simp only at hp
            by_cases hidx : idx < 4
            · rw [if_pos hidx] at hp
              rcases h3 : parseNaiveFmt idx text with _ | ms <;> rw [h3] at hp <;>
                simp only [Option.map] at hp
              · rcases h4 : firstSomeIdx (fun i => parseTzFmt i text) 0 4 with _ | v <;>
                  rw [h4] at hp <;> simp only at hp
                · rcases h5 : firstSomeIdx (fun i => parseNaiveFmt i text) 0 4 with _ | w <;>
                    rw [h5] at hp <;> simp only at hp
                  · cases hp; rfl
                  · cases hp
                · cases hp
              · cases hp
            · rw [if_neg hidx] at hp
              simp only at hp
              rcases h4 : firstSomeIdx (fun i => parseTzFmt i text) 0 4 with _ | v <;>
                rw [h4] at hp <;> simp only at hp
              · rcases h5 : firstSomeIdx (fun i => parseNaiveFmt i text) 0 4 with _ | w <;>
                  rw [h5] at hp <;> simp only at hp
                · cases hp; rfl
                · cases hp
              · cases hp
        | Tz idx =>
            simp only at hp
            by_cases hidx : idx < 4
            · rw [if_pos hidx] at hp
              rcases h3 : parseTzFmt idx text with _ | ms <;> rw [h3] at hp <;>
                simp only [Option.map] at hp
              · rcases h4 : firstSomeIdx (fun i => parseTzFmt i text) 0 4 with _ | v <;>
                  rw [h4] at hp <;> simp only at hp
                · rcases h5 : firstSomeIdx (fun i => parseNaiveFmt i text) 0 4 with _ | w <;>
                    rw [h5] at hp <;> simp only at hp
                  · cases hp; rfl
                  · cases hp
                · cases hp
              · cases hp
            · rw [if_neg hidx] at hp
              simp only at hp
              rcases h4 : firstSomeIdx (fun i => parseTzFmt i text) 0 4 with _ | v <;>
                rw [h4] at hp <;> simp only at hp
              · rcases h5 : firstSomeIdx (fun i => parseNaiveFmt i text) 0 4 with _ | w <;>
                  rw [h5] at hp <;> simp only at hp
                · cases hp; rfl
                · cases hp
              · cases hp
    simp [hraw]
  · intro h; simp [ColumnarPayload.add_match, h]
  · intro h; simp [ColumnarPayload.add_match, h]
  · intro h; simp [ColumnarPayload.add_match, h]
  · simp [ColumnarPayload.add_match]
  · simp [ColumnarPayload.add_match]
  · simp [ColumnarPayload.add_match]
  · simp [ColumnarPayload.add_match]
  · simp [ColumnarPayload.add_match]
  · intro h; simp [ColumnarPayload.add_match, h]
  · intro h; simp [ColumnarPayload.add_match, h]
  · intro h; simp [ColumnarPayload.add_match, h]
  · intro h; simp [ColumnarPayload.add_match, h, LogLevel.toU8]

/-- C7 witness: the amended fallback behaviour at a concrete payload and a
concrete unparsable text. -/
theorem c7_fallback_behaviour_witness :
    ((ColumnarPayload.new []).add_match .Timestamp "abc".data).timestamps.raw =
        [] ++ ["abc".data] ∧
      ((ColumnarPayload.new []).add_match .Date "abc".data).dates = [] ++ ["abc".data] ∧
      ((ColumnarPayload.new []).add_match .IPv4 "abc".data).ipv4_addrs = [] ++ [0] ∧
      ((ColumnarPayload.new []).add_match .Number "abc".data).numbers = [] ++ [⟨0, 1⟩] :=
  ⟨((c7_fallback_behaviour (ColumnarPayload.new []) "abc".data).1 (by decide)).1,
    (c7_fallback_behaviour (ColumnarPayload.new []) "abc".data).2.1 (by decide),
    (c7_fallback_behaviour (ColumnarPayload.new []) "abc".data).2.2.2.2.2.2.2.2.2.1 (by decide),
    (c7_fallback_behaviour (ColumnarPayload.new []) "abc".data).2.2.2.2.2.2.2.2.2.2.1 (by decide)⟩

/-- Reduction of an Except bind on an error, for rewriting. -/
theorem exBindError {ε α β : Type} (e : ε) (f : α → Except ε β) :
    (Except.error e >>= f) = Except.error e := rfl

/-- Reduction of an Except bind on a success, for rewriting. -/
theorem exBindOk {ε α β : Type} (a : α) (f : α → Except ε β) :
    (Except.ok a >>= f) = f a := rfl

/-! ## Claim C8: filter error behaviour -/

/-- C8 counterexample: the numbers column exists in the container (an
empty column is still serialized and listed), the value abc fails f64
parsing, yet filter_op returns an empty ok result instead of an error
(the source substitutes 0.0 through unwrap_or). -/
theorem c8_numbers_value_no_error :
    parseF64 "abc".data = none ∧
      filter_op { numbers := some [] } "numbers".data .Eq "abc".data = .ok [] := by
  decide

/-- C8 amended: filter_op returns an error exactly when the column name is
unknown, or the column is one of ipv4, ipv6, uuids, timestamps and the
value fails that column's typed parse; a value failing f64 parsing
against numbers is coerced to 0.0 and a value failing log-level parsing
against log_levels is coerced to the UNKNOWN tag, neither erroring. -/
theorem c8_filter_error_iff (cols : PartialPayload) (column : Str) (op : Op) (value : Str) :
    (filter_op cols column op value).isOk = false ↔
      ((name_to_type column).isOk = false ∨
        (name_to_type column = .ok .IPv4 ∧ parse_ipv4 value = none) ∨
        (name_to_type column = .ok .IPv6 ∧ parse_ipv6 value = none) ∨
        (name_to_type column = .ok .UUIDs ∧ parse_uuid value = none) ∨
        (name_to_type column = .ok .Timestamps ∧
          (parse_query_timestamp value).isOk = false)) := by
  rcases hct : name_to_type column with e | ct
  · unfold filter_op
    simp [hct, exBindError, Except.isOk, Except.toBool]
  · unfold filter_op
    simp only [hct, exBindOk]
    cases ct
    case Timestamps =>
      rcases h : parse_query_timestamp value with te | tms
      · simp [hct, h, exBindError, Except.isOk, Except.toBool]
      · rcases hc : cols.timestamps with _ | ts <;>
          simp [hct, h, hc, exBindOk, Except.isOk, Except.toBool, read_raw_column]
    case IPv4 =>
      rcases h : parse_ipv4 value with _ | v
      · simp [hct, h, engineParseIpv4, exBindError, Except.isOk, Except.toBool]
      · rcases hc : cols.ipv4_addrs with _ | d <;>
          simp [hct, h, hc, engineParseIpv4, exBindOk, Except.isOk, Except.toBool, read_raw_column]
    case IPv6 =>
      rcases h : parse_ipv6 value with _ | v
      · simp [hct, h, engineParseIpv6, exBindError, Except.isOk, Except.toBool]
      · rcases hc : cols.ipv6_addrs with _ | d <;>
          simp [hct, h, hc, engineParseIpv6, exBindOk, Except.isOk, Except.toBool, read_raw_column]
    case UUIDs =>
      rcases h : parse_uuid value with _ | v
      · simp [hct, h, engineParseUuid, exBindError, Except.isOk, Except.toBool]
      · rcases hc : cols.uuids with _ | d <;>
          simp [hct, h, hc, engineParseUuid, exBindOk, Except.isOk, Except.toBool, read_raw_column]
    case LogLevels =>
      rcases hc : cols.log_levels with _ | d <;>
        simp [hct, hc, Except.isOk, Except.toBool, read_raw_column]
    case Numbers =>
      rcases hc : cols.numbers with _ | d <;>
        simp [hct, hc, Except.isOk, Except.toBool, read_raw_column]
    all_goals simp [hct, Except.isOk, Except.toBool]

/-- C8 witness: the amended characterization at concrete inputs, giving an
error for an unparsable ipv4 filter value and success for an unparsable
numbers filter value. -/
theorem c8_filter_error_iff_witness :
    (filter_op { ipv4_addrs := some [1] } "ipv4".data .Eq "999.9.9.9".data).isOk = false ∧
      ((filter_op { numbers := some [] } "numbers".data .Eq "abc".data).isOk = false ↔
        False) :=
  ⟨(c8_filter_error_iff { ipv4_addrs := some [1] } "ipv4".data .Eq "999.9.9.9".data).mpr
      (by decide),
    by
      rw [c8_filter_error_iff { numbers := some [] } "numbers".data .Eq "abc".data]
      decide⟩


/-! ## Claim C2: timestamp column invariants -/

def sumList : List Int → Int
  | [] => 0
  | d :: l => d + sumList l

theorem sumList_append (l1 l2 : List Int) :
    sumList (l1 ++ l2) = sumList l1 + sumList l2 := by
  induction l1 with
  | nil => simp [sumList]
  | cons d l ih => simp [sumList, ih, add_assoc]

theorem prefixSumsFrom_append (b : Int) (l1 l2 : List Int) :
    prefixSumsFrom b (l1 ++ l2) =
      prefixSumsFrom b l1 ++ prefixSumsFrom (b + sumList l1) l2 := by
  induction l1 generalizing b with
  | nil => simp [prefixSumsFrom, sumList]
  | cons d l ih => simp [prefixSumsFrom, sumList, ih, add_assoc]

theorem prefixSumsFrom_length (b : Int) (l : List Int) :
    (prefixSumsFrom b l).length = l.length := by
  induction l generalizing b with
  | nil => rfl
  | cons d l ih => simp [prefixSumsFrom, ih]

theorem prefixSumsFrom_get (b : Int) (l : List Int) (i : Nat) (h : i < l.length) :
    (prefixSumsFrom b l).get? i = some (b + sumList (l.take (i + 1))) := by
  induction l generalizing b i with
  | nil => simp at h
  | cons d l ih =>
      cases i with
      | zero => simp [prefixSumsFrom, sumList]
      | succ i =>
          simp only [prefixSumsFrom, List.get?_cons_succ, List.take, sumList]
          rw [ih (b + d) i (by simpa using h)]
          simp [add_assoc]

/-- parse_timestamp only updates the format cache and the captured offset;
the value-carrying fields are untouched. -/
theorem parse_timestamp_preserves (c : TimestampColumn) (s : Str) :
    (c.parse_timestamp s).2.base = c.base ∧
      (c.parse_timestamp s).2.base_ms = c.base_ms ∧
      (c.parse_timestamp s).2.deltas = c.deltas ∧
      (c.parse_timestamp s).2.raw = c.raw ∧
      (c.parse_timestamp s).2.last_ms = c.last_ms := by
  rcases hp : c.parse_timestamp s with ⟨r, c1⟩
  simp only
  simp only [TimestampColumn.parse_timestamp] at hp
  rcases hc : c.cached_format_idx with _ | cf
  · rw [hc] at hp
    simp only at hp
    rcases h4 : firstSomeIdx (fun i => parseTzFmt i s) 0 4 with _ | v <;>
      rw [h4] at hp <;> simp only at hp
    · rcases h5 : firstSomeIdx (fun i => parseNaiveFmt i s) 0 4 with _ | w <;>
        rw [h5] at hp <;> simp only at hp
      · injection hp with h1 h2; subst h2; exact ⟨rfl, rfl, rfl, rfl, rfl⟩
      · injection hp with h1 h2; subst h2; exact ⟨rfl, rfl, rfl, rfl, rfl⟩
    · injection hp with h1 h2; subst h2
      split <;> exact ⟨rfl, rfl, rfl, rfl, rfl⟩
  · rw [hc] at hp
    cases cf with
    | None =>
        simp only at hp
        rcases h4 : firstSomeIdx (fun i => parseTzFmt i s) 0 4 with _ | v <;>
          rw [h4] at hp <;> simp only at hp
        · rcases h5 : firstSomeIdx (fun i => parseNaiveFmt i s) 0 4 with _ | w <;>
            rw [h5] at hp <;> simp only at hp
          · injection hp with h1 h2; subst h2; exact ⟨rfl, rfl, rfl, rfl, rfl⟩
          · injection hp with h1 h2; subst h2; exact ⟨rfl, rfl, rfl, rfl, rfl⟩
        · injection hp with h1 h2; subst h2
          split <;> exact ⟨rfl, rfl, rfl, rfl, rfl⟩
    | Naive idx =>
        simp only at hp
        by_cases hidx : idx < 4
        · rw [if_pos hidx] at hp
          rcases h3 : parseNaiveFmt idx s with _ | ms <;> rw [h3] at hp <;>
            simp only [Option.map] at hp
          · rcases h4 : firstSomeIdx (fun i => parseTzFmt i s) 0 4 with _ | v <;>
              rw [h4] at hp <;> simp only at hp
            · rcases h5 : firstSomeIdx (fun i => parseNaiveFmt i s) 0 4 with _ | w <;>
                rw [h5] at hp <;> simp only at hp
              · injection hp with h1 h2; subst h2; exact ⟨rfl, rfl, rfl, rfl, rfl⟩
              · injection hp with h1 h2; subst h2; exact ⟨rfl, rfl, rfl, rfl, rfl⟩
            · injection hp with h1 h2; subst h2
              split <;> exact ⟨rfl, rfl, rfl, rfl, rfl⟩
          · injection hp with h1 h2; subst h2; exact ⟨rfl, rfl, rfl, rfl, rfl⟩
        · rw [if_neg hidx] at hp
          simp only at hp
          rcases h4 : firstSomeIdx (fun i => parseTzFmt i s) 0 4 with _ | v <;>
            rw [h4] at hp <;> simp only at hp
          · rcases h5 : firstSomeIdx (fun i => parseNaiveFmt i s) 0 4 with _ | w <;>
              rw [h5] at hp <;> simp only at hp
            · injection hp with h1 h2; subst h2; exact ⟨rfl, rfl, rfl, rfl, rfl⟩
            · injection hp with h1 h2; subst h2; exact ⟨rfl, rfl, rfl, rfl, rfl⟩
          · injection hp with h1 h2; subst h2
            split <;> exact ⟨rfl, rfl, rfl, rfl, rfl⟩
    | Tz idx =>
        simp only at hp
        by_cases hidx : idx < 4
        · rw [if_pos hidx] at hp
          rcases h3 : parseTzFmt idx s with _ | ms <;> rw [h3] at hp <;>
            simp only [Option.map] at hp
          · rcases h4 : firstSomeIdx (fun i => parseTzFmt i s) 0 4 with _ | v <;>
              rw [h4] at hp <;> simp only at hp
            · rcases h5 : firstSomeIdx (fun i => parseNaiveFmt i s) 0 4 with _ | w <;>
                rw [h5] at hp <;> simp only at hp
              · injection hp with h1 h2; subst h2; exact ⟨rfl, rfl, rfl, rfl, rfl⟩
              · injection hp with h1 h2; subst h2; exact ⟨rfl, rfl, rfl, rfl, rfl⟩
            · injection hp with h1 h2; subst h2
              split <;> exact ⟨rfl, rfl, rfl, rfl, rfl⟩
          · injection hp with h1 h2; subst h2
            split <;> exact ⟨rfl, rfl, rfl, rfl, rfl⟩
        · rw [if_neg hidx] at hp
          simp only at hp
          rcases h4 : firstSomeIdx (fun i => parseTzFmt i s) 0 4 with _ | v <;>
            rw [h4] at hp <;> simp only at hp
          · rcases h5 : firstSomeIdx (fun i => parseNaiveFmt i s) 0 4 with _ | w <;>
              rw [h5] at hp <;> simp only at hp
            · injection hp with h1 h2; subst h2; exact ⟨rfl, rfl, rfl, rfl, rfl⟩
            · injection hp with h1 h2; subst h2; exact ⟨rfl, rfl, rfl, rfl, rfl⟩
          · injection hp with h1 h2; subst h2
            split <;> exact ⟨rfl, rfl, rfl, rfl, rfl⟩

/-- The running invariant of a timestamp column: no base means no deltas,
and a base means the deltas start at 0 and sum to the last value. -/
def TsInv (c : TimestampColumn) : Prop :=
  match c.base_ms with
  | none => c.deltas = []
  | some b => c.deltas.head? = some 0 ∧ b + sumList c.deltas = c.last_ms

/-- Appending all texts of a list to a timestamp column. -/
def foldAdd (c : TimestampColumn) (ss : List Str) : TimestampColumn :=
  ss.foldl (fun c s => (c.add s).2) c

def addAll (ss : List Str) : TimestampColumn := foldAdd {} ss

/-- The parse results seen along the adds, in order. -/
def parsedMsList (c : TimestampColumn) : List Str → List (Option Int)
  | [] => []
  | s :: ss => (c.parse_timestamp s).1 :: parsedMsList (c.add s).2 ss

/-- One parsed add: the invariant is preserved and the prefix sums gain
exactly the parsed absolute millisecond value. -/
theorem add_parsed (c : TimestampColumn) (s : Str) (ms : Int)
    (hp : (c.parse_timestamp s).1 = some ms) (hinv : TsInv c) :
    TsInv (c.add s).2 ∧
      (c.add s).2.prepare_for_read = c.prepare_for_read ++ [ms] ∧
      (c.add s).2.deltas.length = c.deltas.length + 1 ∧
      (c.add s).2.raw = c.raw := by
  obtain ⟨hb, hbm, hd, hr, hl⟩ := parse_timestamp_preserves c s
  rcases hps : c.parse_timestamp s with ⟨r, c1⟩
  rw [hps] at hb hbm hd hr hl
  simp only at hb hbm hd hr hl
  have hrs : r = some ms := by rw [hps] at hp; exact hp
  subst hrs
  simp only [TimestampColumn.add, hps]
  rcases hbase : c.base_ms with _ | b
  · have h1 : c1.base_ms.isNone = true := by rw [hbm, hbase]; rfl
    have hde : c.deltas = [] := by
      unfold TsInv at hinv; rw [hbase] at hinv; exact hinv
    have hd1 : c1.deltas = [] := by rw [hd, hde]
    simp only [h1, if_true]
    refine ⟨?_, ?_, ?_, ?_⟩
    · unfold TsInv
      simp [hd1, sumList]
    · simp [TimestampColumn.prepare_for_read, hd1, hde, hbm, hbase, prefixSumsFrom, sumList]
    · simp [hd1, hde]
    · simp [hr]
  · have h1 : c1.base_ms.isNone = false := by rw [hbm, hbase]; rfl
    unfold TsInv at hinv
    rw [hbase] at hinv
    obtain ⟨hhead, hsum⟩ := hinv
    simp only [h1, if_false, Bool.false_eq_true]
    refine ⟨?_, ?_, ?_, ?_⟩
    · unfold TsInv
      simp only [hbm, hbase, hd, hl]
      constructor
      · rcases hde : c.deltas with _ | ⟨d0, drest⟩
        · rw [hde] at hhead; simp at hhead
        · rw [hde] at hhead; simpa using hhead
      · rw [sumList_append]
        simp [sumList]
        omega
    · simp only [TimestampColumn.prepare_for_read, hd, hbm, hbase, Option.getD]
      rw [prefixSumsFrom_append]
      simp [prefixSumsFrom, sumList]
      omega
    · simp [hd]
    · simp [hr]

/-- One unparsable add: the invariant and the delta side are untouched and
the text lands on raw. -/
theorem add_raw (c : TimestampColumn) (s : Str)
    (hp : (c.parse_timestamp s).1 = none) (hinv : TsInv c) :
    TsInv (c.add s).2 ∧
      (c.add s).2.prepare_for_read = c.prepare_for_read ∧
      (c.add s).2.deltas.length = c.deltas.length ∧
      (c.add s).2.raw = c.raw ++ [s] := by
  obtain ⟨hb, hbm, hd, hr, hl⟩ := parse_timestamp_preserves c s
  rcases hps : c.parse_timestamp s with ⟨r, c1⟩
  rw [hps] at hb hbm hd hr hl
  simp only at hb hbm hd hr hl
  have hrs : r = none := by rw [hps] at hp; exact hp
  subst hrs
  simp only [TimestampColumn.add, hps]
  refine ⟨?_, ?_, ?_, ?_⟩
  · unfold TsInv
    unfold TsInv at hinv
    rcases hbase : c.base_ms with _ | b <;> rw [hbase] at hinv <;>
      simp [hbm, hbase, hd, hl, hinv]
  · simp [TimestampColumn.prepare_for_read, hd, hbm]
  · simp [hd]
  · simp [hr]

theorem parsedMsList_length (ss : List Str) : ∀ c, (parsedMsList c ss).length = ss.length := by
  induction ss with
  | nil => intro c; rfl
  | cons s ss ih => intro c; simp [parsedMsList, ih]

/-- The fold over a list of texts: invariant preserved, prefix sums extend
by the parsed values, lengths account for successes and failures. -/
theorem foldAdd_spec (ss : List Str) : ∀ c, TsInv c →
    TsInv (foldAdd c ss) ∧
      (foldAdd c ss).prepare_for_read =
        c.prepare_for_read ++ (parsedMsList c ss).filterMap id ∧
      (foldAdd c ss).deltas.length =
        c.deltas.length + ((parsedMsList c ss).filterMap id).length ∧
      (foldAdd c ss).raw.length =
        c.raw.length + (ss.length - ((parsedMsList c ss).filterMap id).length) := by
  induction ss with
  | nil => intro c hinv; simp [foldAdd, parsedMsList, hinv]
  | cons s ss ih =>
      intro c hinv
      have hfold : foldAdd c (s :: ss) = foldAdd (c.add s).2 ss := rfl
      have hfml : ((parsedMsList (c.add s).2 ss).filterMap id).length ≤ ss.length := by
        have h1 := List.length_filterMap_le id (parsedMsList (c.add s).2 ss)
        rw [parsedMsList_length ss (c.add s).2] at h1
        exact h1
      rcases hp : (c.parse_timestamp s).1 with _ | ms
      · obtain ⟨h1, h2, h3, h4⟩ := add_raw c s hp hinv
        obtain ⟨g1, g2, g3, g4⟩ := ih (c.add s).2 h1
        refine ⟨by rwa [hfold], ?_, ?_, ?_⟩
        · rw [hfold, g2, h2]
          simp [parsedMsList, hp]
        · rw [hfold, g3, h3]
          simp [parsedMsList, hp]
        · rw [hfold, g4, h4]
          simp [parsedMsList, hp, List.filterMap_cons]
          try omega
      · obtain ⟨h1, h2, h3, h4⟩ := add_parsed c s ms hp hinv
        obtain ⟨g1, g2, g3, g4⟩ := ih (c.add s).2 h1
        refine ⟨by rwa [hfold], ?_, ?_, ?_⟩
        · rw [hfold, g2, h2]
          simp [parsedMsList, hp]
        · rw [hfold, g3, h3]
          simp [parsedMsList, hp, List.filterMap_cons]
          try omega
        · rw [hfold, g4, h4]
          simp [parsedMsList, hp, List.filterMap_cons]
          try omega

/-- C2: when every appended timestamp parses (no raw fallback occurred),
the deltas count the entries, the first delta is 0 exactly when the base
is set (both hold vacuously on no entries), and prepare_for_read lists,
for each index i, base_ms plus the sum of the deltas up to i inclusive,
which is the absolute UTC millisecond value of the i-th parsed
timestamp. -/
theorem c2_timestamp_column_invariants (ss : List Str) (h : (addAll ss).raw = []) :
    (addAll ss).deltas.length = ss.length ∧
      ((addAll ss).base_ms.isSome ↔ (addAll ss).deltas.head? = some 0) ∧
      (addAll ss).prepare_for_read = (parsedMsList {} ss).filterMap id ∧
      (∀ i, i < ss.length →
        (addAll ss).prepare_for_read.get? i =
          some ((addAll ss).base_ms.getD 0 + sumList ((addAll ss).deltas.take (i + 1)))) := by
  have hinv0 : TsInv ({} : TimestampColumn) := by unfold TsInv; rfl
  obtain ⟨hinv, hpre, hlen, hraw⟩ := foldAdd_spec ss {} hinv0
  have h2 : (foldAdd {} ss).raw = [] := h
  rw [h2] at hraw
  have hfml : ((parsedMsList ({} : TimestampColumn) ss).filterMap id).length ≤ ss.length := by
    have h1 := List.length_filterMap_le id (parsedMsList ({} : TimestampColumn) ss)
    rw [parsedMsList_length ss ({} : TimestampColumn)] at h1
    exact h1
  have halllen : ((parsedMsList ({} : TimestampColumn) ss).filterMap id).length = ss.length := by
    simp only [List.length_nil] at hraw
    omega
  have hdl : (addAll ss).deltas.length = ss.length := by
    have h3 : (foldAdd {} ss).deltas.length =
        ({} : TimestampColumn).deltas.length +
          ((parsedMsList ({} : TimestampColumn) ss).filterMap id).length := hlen
    rw [halllen] at h3
    simpa using h3
  refine ⟨hdl, ?_, ?_, ?_⟩
  · unfold TsInv at hinv
    rcases hbase : (foldAdd ({} : TimestampColumn) ss).base_ms with _ | b <;>
      rw [hbase] at hinv
    · have hinv2 : (foldAdd ({} : TimestampColumn) ss).deltas = [] := hinv
      show (foldAdd ({} : TimestampColumn) ss).base_ms.isSome ↔
        (foldAdd ({} : TimestampColumn) ss).deltas.head? = some 0
      rw [hbase, hinv2]
      simp
    · have hinv2 : (foldAdd ({} : TimestampColumn) ss).deltas.head? = some 0 := hinv.1
      show (foldAdd ({} : TimestampColumn) ss).base_ms.isSome ↔
        (foldAdd ({} : TimestampColumn) ss).deltas.head? = some 0
      rw [hbase, hinv2]
      simp
  · exact hpre
  · intro i hi
    show (prefixSumsFrom ((addAll ss).base_ms.getD 0) (addAll ss).deltas).get? i = _
    exact prefixSumsFrom_get _ _ i (by omega)

/-- C2 witness: the invariants at the three-line delta-coding scenario of
the specification. -/
theorem c2_timestamp_column_invariants_witness :
    (addAll ["2024-01-15 10:00:00".data, "2024-01-15 10:00:01".data,
        "2024-01-15 10:00:03".data]).deltas.length =
      (["2024-01-15 10:00:00".data, "2024-01-15 10:00:01".data,
        "2024-01-15 10:00:03".data] : List Str).length ∧
      ((addAll ["2024-01-15 10:00:00".data, "2024-01-15 10:00:01".data,
          "2024-01-15 10:00:03".data]).base_ms.isSome ↔
        (addAll ["2024-01-15 10:00:00".data, "2024-01-15 10:00:01".data,
          "2024-01-15 10:00:03".data]).deltas.head? = some 0) ∧
      (addAll ["2024-01-15 10:00:00".data, "2024-01-15 10:00:01".data,
          "2024-01-15 10:00:03".data]).prepare_for_read =
        (parsedMsList {} ["2024-01-15 10:00:00".data, "2024-01-15 10:00:01".data,
          "2024-01-15 10:00:03".data]).filterMap id ∧
      (∀ i, i < (["2024-01-15 10:00:00".data, "2024-01-15 10:00:01".data,
          "2024-01-15 10:00:03".data] : List Str).length →
        (addAll ["2024-01-15 10:00:00".data, "2024-01-15 10:00:01".data,
            "2024-01-15 10:00:03".data]).prepare_for_read.get? i =
          some ((addAll ["2024-01-15 10:00:00".data, "2024-01-15 10:00:01".data,
              "2024-01-15 10:00:03".data]).base_ms.getD 0 +
            sumList ((addAll ["2024-01-15 10:00:00".data, "2024-01-15 10:00:01".data,
              "2024-01-15 10:00:03".data]).deltas.take (i + 1)))) :=
  c2_timestamp_column_invariants
    ["2024-01-15 10:00:00".data, "2024-01-15 10:00:01".data, "2024-01-15 10:00:03".data]
    (by decide)


/-! ## Claim C10: restore is total and skips unresolvable placeholders -/

/-- The cell count of the column an internal placeholder tag selects; the
delta-timestamp tag reads the precomputed prefix sums, one per delta. -/
def columnLen (p : ColumnarPayload) (tag : Nat) : Nat :=
  if tag = 0 then p.timestamps.deltas.length
  else if tag = 1 then p.ipv4_addrs.length
  else if tag = 2 then p.log_levels.length
  else if tag = 3 then p.numbers.length
  else if tag = 4 then p.uuids.length
  else if tag = 5 then p.emails.length
  else if tag = 6 then p.urls.length
  else if tag = 7 then p.paths.length
  else if tag = 8 then p.date_days.length
  else if tag = 9 then p.time_ms.length
  else if tag = 10 then p.hex_values.length
  else if tag = 11 then p.others.length
  else if tag = 12 then p.ipv6_addrs.length
  else if tag = 13 then p.timestamps.raw.length
  else if tag = 14 then p.dates.length
  else p.times.length

theorem get_delta_oob (ts : TimestampColumn) (idx : Nat) (sums : List Int)
    (h : sums.length ≤ idx) : ts.get_delta idx sums = none := by
  unfold TimestampColumn.get_delta
  rcases ts.base with _ | b
  · rfl
  · simp [List.get?_eq_getElem?, List.getElem?_eq_none h, Option.bind]

theorem get_delta_deltas_oob (ts : TimestampColumn) (idx : Nat)
    (h : ts.deltas.length ≤ idx) : ts.get_delta idx ts.prepare_for_read = none :=
  get_delta_oob ts idx _ (by
    rw [show ts.prepare_for_read =
      prefixSumsFrom (ts.base_ms.getD 0) ts.deltas from rfl, prefixSumsFrom_length]
    exact h)

theorem restoreTokens_append (p : ColumnarPayload) (sums : List Int)
    (l1 l2 : List SkeletonToken) :
    restoreTokens p sums (l1 ++ l2) =
      restoreTokens p sums l1 ++ restoreTokens p sums l2 := by
  induction l1 with
  | nil => rfl
  | cons t l ih =>
      cases t <;> simp [restoreTokens, ih]

/-- C10: restore is a total function, and a skeleton Ref token whose
placeholder index has no map entry, whose mapped tag is outside the
handled range 0..15, or whose column index is out of range for its
column, resolves to none in get_value_fast and contributes nothing to the
restored text, the remaining tokens being rendered as if it were absent. -/
theorem c10_restore_skips_unresolvable (p : ColumnarPayload)
    (pre post : List SkeletonToken) (i : Nat)
    (htok : p.skeleton_tokens = pre ++ .Ref i :: post)
    (h : p.placeholder_map.get? i = none ∨
      ∃ tag idx, p.placeholder_map.get? i = some (tag, idx) ∧
        (16 ≤ tag ∨ columnLen p tag ≤ idx)) :
    p.get_value_fast i p.timestamps.prepare_for_read = none ∧
      p.restore =
        restoreTokens p p.timestamps.prepare_for_read pre ++
          restoreTokens p p.timestamps.prepare_for_read post := by
  have hnone : p.get_value_fast i p.timestamps.prepare_for_read = none := by
    rcases h with h | ⟨tag, idx, hmap, hbad⟩
    · have h2 : p.placeholder_map[i]? = none := by
        rw [← List.get?_eq_getElem?]; exact h
      simp [ColumnarPayload.get_value_fast, h2, Option.bind]
    · have hmap2 : p.placeholder_map[i]? = some (tag, idx) := by
        rw [← List.get?_eq_getElem?]; exact hmap
      unfold ColumnarPayload.get_value_fast
      simp only [hmap2, List.get?_eq_getElem?, Option.bind_eq_bind, Option.some_bind]
      rcases hbad with hbig | hlen
      · have h0 : tag ≠ 0 := by omega
        have h1 : tag ≠ 1 := by omega
        have h2 : tag ≠ 2 := by omega
        have h3 : tag ≠ 3 := by omega
        have h4 : tag ≠ 4 := by omega
        have h5 : tag ≠ 5 := by omega
        have h6 : tag ≠ 6 := by omega
        have h7 : tag ≠ 7 := by omega
        have h8 : tag ≠ 8 := by omega
        have h9 : tag ≠ 9 := by omega
        have h10 : tag ≠ 10 := by omega
        have h11 : tag ≠ 11 := by omega
        have h12 : tag ≠ 12 := by omega
        have h13 : tag ≠ 13 := by omega
        have h14 : tag ≠ 14 := by omega
        have h15 : tag ≠ 15 := by omega
        simp [h0, h1, h2, h3, h4, h5, h6, h7, h8, h9, h10, h11, h12, h13, h14, h15]
      · by_cases hb : 16 ≤ tag
        · have h0 : tag ≠ 0 := by omega
          have h1 : tag ≠ 1 := by omega
          have h2 : tag ≠ 2 := by omega
          have h3 : tag ≠ 3 := by omega
          have h4 : tag ≠ 4 := by omega
          have h5 : tag ≠ 5 := by omega
          have h6 : tag ≠ 6 := by omega
          have h7 : tag ≠ 7 := by omega
          have h8 : tag ≠ 8 := by omega
          have h9 : tag ≠ 9 := by omega
          have h10 : tag ≠ 10 := by omega
          have h11 : tag ≠ 11 := by omega
          have h12 : tag ≠ 12 := by omega
          have h13 : tag ≠ 13 := by omega
          have h14 : tag ≠ 14 := by omega
          have h15 : tag ≠ 15 := by omega
          simp [h0, h1, h2, h3, h4, h5, h6, h7, h8, h9, h10, h11, h12, h13, h14, h15]
        · have hlt : tag < 16 := by omega
          interval_cases tag <;> simp [columnLen] at hlen <;>
            first
              | simp [get_delta_deltas_oob p.timestamps idx hlen]
              | simp [List.get?_eq_getElem?, List.getElem?_eq_none hlen]
  refine ⟨hnone, ?_⟩
  show restoreTokens p p.timestamps.prepare_for_read p.skeleton_tokens = _
  rw [htok, restoreTokens_append]
  simp [restoreTokens, hnone]

/-- Witness payload: a single placeholder bound to the unhandled tag 99. -/
def c10Payload : ColumnarPayload :=
  { skeleton_tokens := [.Text ['a'], .Ref 0, .Text ['b']],
    placeholder_map := [(99, 0)] }

/-- C10 witness: a payload whose single Ref token names a map entry with an
unhandled tag restores to the surrounding literals alone. -/
theorem c10_restore_skips_unresolvable_witness :
    c10Payload.get_value_fast 0 c10Payload.timestamps.prepare_for_read = none ∧
      c10Payload.restore =
        restoreTokens c10Payload c10Payload.timestamps.prepare_for_read [.Text ['a']] ++
          restoreTokens c10Payload c10Payload.timestamps.prepare_for_read [.Text ['b']] :=
  c10_restore_skips_unresolvable c10Payload [.Text ['a']] [.Text ['b']] 0 (by decide)
    (Or.inr ⟨99, 0, by decide, Or.inl (by omega)⟩)

/-! ## Claim C5: container directory layout -/

theorem toLeBytes_length (w n : Nat) : (toLeBytes w n).length = w := by
  induction w generalizing n with
  | zero => rfl
  | succ w ih => simp [toLeBytes, ih]

theorem columnEntry_to_bytes_length (e : ColumnEntry) : e.to_bytes.length = 21 := by
  simp [ColumnEntry.to_bytes, toLeBytes_length]

theorem header_to_bytes_length (h : FormatV3Header) : h.to_bytes.length = 32 := by
  simp only [FormatV3Header.to_bytes, List.length_append, List.length_cons,
    toLeBytes_length, List.length_replicate]
  have := List.length_take 13 h.reserved
  omega

/-- Total compressed size of a column plan. -/
def sumSizes (plan : List (ColumnType × Bytes × Nat)) : Nat :=
  (plan.map (fun tc => tc.2.1.length)).sum

theorem mkEntries_length (plan : List (ColumnType × Bytes × Nat)) :
    ∀ d, (mkEntries d plan).length = plan.length := by
  induction plan with
  | nil => intro d; rfl
  | cons tc plan ih =>
      intro d
      rcases tc with ⟨t, blob, cnt⟩
      simp [mkEntries, ih]

theorem mkEntries_get (plan : List (ColumnType × Bytes × Nat)) :
    ∀ d i, i < plan.length →
      ∃ t blob cnt off, plan.get? i = some (t, blob, cnt) ∧
        (mkEntries d plan).get? i =
          some { col_type := t, offset := off, compressed_size := blob.length,
                 uncompressed_size := 0, row_count := cnt } ∧
        off = d + sumSizes (plan.take i) := by
  induction plan with
  | nil => intro d i hi; simp at hi
  | cons tc plan ih =>
      intro d i hi
      rcases tc with ⟨t, blob, cnt⟩
      cases i with
      | zero =>
          refine ⟨t, blob, cnt, d, rfl, ?_, ?_⟩
          · rfl
          · simp [sumSizes]
      | succ i =>
          obtain ⟨t2, b2, c2, off, h1, h2, h3⟩ := ih (d + blob.length) i (by simpa using hi)
          refine ⟨t2, b2, c2, off, by simpa using h1, by simpa [mkEntries] using h2, ?_⟩
          rw [h3]
          simp [sumSizes]
          omega

theorem mkEntries_offset_bound (plan : List (ColumnType × Bytes × Nat)) :
    ∀ d, ∀ e ∈ mkEntries d plan, e.offset + e.compressed_size ≤ d + sumSizes plan := by
  induction plan with
  | nil => intro d e he; simp [mkEntries] at he
  | cons tc plan ih =>
      intro d e he
      rcases tc with ⟨t, blob, cnt⟩
      simp only [mkEntries, List.mem_cons] at he
      rcases he with rfl | he
      · simp only [sumSizes, List.map_cons, List.sum_cons]
        omega
      · have := ih (d + blob.length) e he
        simp only [sumSizes, List.map_cons, List.sum_cons] at this ⊢
        omega

theorem flatMap_entry_bytes_length (entries : List ColumnEntry) :
    (entries.flatMap ColumnEntry.to_bytes).length = entries.length * 21 := by
  induction entries with
  | nil => rfl
  | cons e entries ih =>
      simp [List.flatMap_cons, columnEntry_to_bytes_length, ih]
      ring

theorem flatMap_blobs_length (plan : List (ColumnType × Bytes × Nat)) :
    (plan.flatMap (fun tc => tc.2.1)).length = sumSizes plan := by
  induction plan with
  | nil => rfl
  | cons tc plan ih => simp [List.flatMap_cons, sumSizes, ih]; try rfl

theorem buildContainer_length (plan : List (ColumnType × Bytes × Nat))
    (h : FormatV3Header) :
    (buildContainer plan h).length = 42 + plan.length * 21 + sumSizes plan := by
  unfold buildContainer
  simp only [List.length_append, flatMap_entry_bytes_length, flatMap_blobs_length,
    header_to_bytes_length, mkEntries_length]
  have hm : ALICE_TEXT_MAGIC.length = 8 := rfl
  rw [hm]
  simp only [List.length_cons, List.length_nil]
  try omega

theorem filterMap_fst_sublist (l : List (ColumnType × Nat))
    (g : ColumnType × Nat → Option (ColumnType × Bytes × Nat))
    (hg : ∀ tc r, g tc = some r → r.1 = tc.1) :
    ((l.filterMap g).map (fun tc => tc.1)).Sublist (l.map (fun tc => tc.1)) := by
  induction l with
  | nil => simp
  | cons tc l ih =>
      rcases hr : g tc with _ | r
      · simp only [List.filterMap_cons, hr, List.map_cons]
        exact ih.cons _
      · simp only [List.filterMap_cons, hr, List.map_cons]
        rw [hg tc r hr]
        exact ih.cons₂ _

/-- The entries that compress writes into the directory. -/
def compressEntries (text : Str) (ser : ColumnType → Bytes) : List ColumnEntry :=
  mkEntries (42 + (columnPlan (ColumnarEncoder.encode text) ser).length * ColumnEntry.SIZE)
    (columnPlan (ColumnarEncoder.encode text) ser)

/-- C5: in every container compress produces, the directory starts at byte
42 and consists of one 21-byte record per entry; entry i's offset is
42 + N * 21 plus the compressed sizes of the entries before it, measured
from the start of the file; offset plus compressed size never exceeds the
file length; and no column tag repeats in the directory. -/
theorem c5_directory_layout (level : CompressionLevel) (text : Str)
    (ser : ColumnType → Bytes) :
    (∀ e : ColumnEntry, e.to_bytes.length = 21) ∧
      ((FormatV3Writer.compress level text ser).drop 42).take
          ((columnPlan (ColumnarEncoder.encode text) ser).length * 21) =
        (compressEntries text ser).flatMap ColumnEntry.to_bytes ∧
      (∀ i, i < (columnPlan (ColumnarEncoder.encode text) ser).length →
        ∃ t blob cnt off,
          (columnPlan (ColumnarEncoder.encode text) ser).get? i = some (t, blob, cnt) ∧
          (compressEntries text ser).get? i =
            some { col_type := t, offset := off, compressed_size := blob.length,
                   uncompressed_size := 0, row_count := cnt } ∧
          off = 42 + (columnPlan (ColumnarEncoder.encode text) ser).length * 21 +
            sumSizes ((columnPlan (ColumnarEncoder.encode text) ser).take i)) ∧
      (∀ e ∈ compressEntries text ser,
        e.offset + e.compressed_size ≤ (FormatV3Writer.compress level text ser).length) ∧
      ((compressEntries text ser).map (fun e => e.col_type)).Nodup := by
  refine ⟨columnEntry_to_bytes_length, ?_, ?_, ?_, ?_⟩
  · show ((buildContainer (columnPlan (ColumnarEncoder.encode text) ser) _).drop 42).take _ = _
    have hout : ∀ hd : FormatV3Header,
        buildContainer (columnPlan (ColumnarEncoder.encode text) ser) hd =
          (ALICE_TEXT_MAGIC ++ [3, 0] ++ hd.to_bytes) ++
            ((compressEntries text ser).flatMap ColumnEntry.to_bytes ++
              (columnPlan (ColumnarEncoder.encode text) ser).flatMap (fun tc => tc.2.1)) := by
      intro hd
      simp [buildContainer, compressEntries, List.append_assoc]
    rw [hout]
    have h42 : (ALICE_TEXT_MAGIC ++ [3, 0] ++
        ({ original_length := text.length, compression_level := level.toU8,
           column_count := (columnPlan (ColumnarEncoder.encode text) ser).length,
           row_count := linesCount text,
           reserved := List.replicate 13 0 } : FormatV3Header).to_bytes).length = 42 := by
      simp only [List.length_append, header_to_bytes_length]
      rfl
    rw [← h42, List.drop_left]
    have hdir : ((compressEntries text ser).flatMap ColumnEntry.to_bytes).length =
        (columnPlan (ColumnarEncoder.encode text) ser).length * 21 := by
      rw [flatMap_entry_bytes_length]
      unfold compressEntries
      rw [mkEntries_length]
    rw [← hdir, List.take_left]
  · intro i hi
    obtain ⟨t, blob, cnt, off, h1, h2, h3⟩ :=
      mkEntries_get (columnPlan (ColumnarEncoder.encode text) ser)
        (42 + (columnPlan (ColumnarEncoder.encode text) ser).length * ColumnEntry.SIZE) i hi
    exact ⟨t, blob, cnt, off, h1, h2, by rw [h3]; rfl⟩
  · intro e he
    have h1 := mkEntries_offset_bound (columnPlan (ColumnarEncoder.encode text) ser) _ e he
    rw [show (FormatV3Writer.compress level text ser).length =
      42 + (columnPlan (ColumnarEncoder.encode text) ser).length * 21 +
        sumSizes (columnPlan (ColumnarEncoder.encode text) ser) from
      buildContainer_length _ _]
    simpa [ColumnEntry.SIZE] using h1
  · have hsub := filterMap_fst_sublist
      [(ColumnType.Skeleton, (ColumnarEncoder.encode text).skeleton_tokens.length),
       (ColumnType.PlaceholderMap, (ColumnarEncoder.encode text).placeholder_map.length),
       (ColumnType.Timestamps, (ColumnarEncoder.encode text).timestamps.deltas.length),
       (ColumnType.IPv4, (ColumnarEncoder.encode text).ipv4_addrs.length),
       (ColumnType.IPv6, (ColumnarEncoder.encode text).ipv6_addrs.length),
       (ColumnType.LogLevels, (ColumnarEncoder.encode text).log_levels.length),
       (ColumnType.Numbers, (ColumnarEncoder.encode text).numbers.length),
       (ColumnType.UUIDs, (ColumnarEncoder.encode text).uuids.length),
       (ColumnType.Emails, (ColumnarEncoder.encode text).emails.length),
       (ColumnType.URLs, (ColumnarEncoder.encode text).urls.length),
       (ColumnType.Paths, (ColumnarEncoder.encode text).paths.length),
       (ColumnType.DateDays, (ColumnarEncoder.encode text).date_days.length),
       (ColumnType.DatesRaw, (ColumnarEncoder.encode text).dates.length),
       (ColumnType.TimeMs, (ColumnarEncoder.encode text).time_ms.length),
       (ColumnType.TimesRaw, (ColumnarEncoder.encode text).times.length),
       (ColumnType.HexValues, (ColumnarEncoder.encode text).hex_values.length),
       (ColumnType.Others, (ColumnarEncoder.encode text).others.length),
       (ColumnType.TimestampsRaw, (ColumnarEncoder.encode text).timestamps.raw.length)]
      (fun tc =>
        if !(ser tc.1).isEmpty || tc.1 = ColumnType.Skeleton ||
            tc.1 = ColumnType.PlaceholderMap then
          some (tc.1, ser tc.1, tc.2)
        else none)
      (by
        intro tc r hr
        simp only at hr
        split at hr
        · cases hr; rfl
        · cases hr)
    have hplanmap : ((compressEntries text ser).map (fun e => e.col_type)) =
        ((columnPlan (ColumnarEncoder.encode text) ser).map (fun tc => tc.1)) := by
      unfold compressEntries
      generalize 42 + (columnPlan (ColumnarEncoder.encode text) ser).length *
        ColumnEntry.SIZE = d
      generalize columnPlan (ColumnarEncoder.encode text) ser = plan
      induction plan generalizing d with
      | nil => rfl
      | cons tc plan ih =>
          rcases tc with ⟨t, blob, cnt⟩
          simp [mkEntries, ih]
    rw [hplanmap]
    refine List.Sublist.nodup hsub ?_
    simp only [List.map_cons, List.map_nil]
    decide

/-! ## Claim C6: read_from error behaviour -/

theorem readExact_ok (data : Bytes) (pos n : Nat) (h : pos + n ≤ data.length) :
    readExact data pos n = .ok ((data.drop pos).take n, pos + n) := by
  unfold readExact
  rw [if_pos h]

theorem readExact_err (data : Bytes) (pos n : Nat) (h : data.length < pos + n) :
    readExact data pos n = .error .Io := by
  unfold readExact
  rw [if_neg (by omega)]

theorem readExact_error_shape (data : Bytes) (pos n : Nat) (e : ALICETextError)
    (h : readExact data pos n = .error e) : e = .Io := by
  unfold readExact at h
  split at h
  · exact Except.noConfusion h
  · injection h with h2
    exact h2.symm

theorem columnEntry_from_bytes_error (b : Bytes) (e : ALICETextError)
    (h : ColumnEntry.from_bytes b = .error e) : e = .DecompressionError := by
  unfold ColumnEntry.from_bytes at h
  split at h
  · injection h with h2
    exact h2.symm
  · split at h
    · injection h with h2
      exact h2.symm
    · exact Except.noConfusion h

theorem header_from_bytes_error (b : Bytes) (e : ALICETextError)
    (h : FormatV3Header.from_bytes b = .error e) : e = .DecompressionError := by
  unfold FormatV3Header.from_bytes at h
  split at h
  · injection h with h2
    exact h2.symm
  · exact Except.noConfusion h

theorem header_from_bytes_ok (b : Bytes) (h : 32 ≤ b.length) :
    FormatV3Header.from_bytes b =
      .ok { original_length := fromLeBytes (b.take 8),
            compression_level := b.getD 8 0,
            column_count := fromLeBytes ((b.drop 9).take 2),
            row_count := fromLeBytes ((b.drop 11).take 8),
            reserved := (b.drop 19).take 13 } := by
  unfold FormatV3Header.from_bytes
  rw [if_neg (by simp only [FormatV3Header.SIZE]; omega)]

theorem headD_drop_take (l : Bytes) (pos n : Nat) (hn : n ≠ 0) :
    ((l.drop pos).take n).headD 0 = l.getD pos 0 := by
  induction pos generalizing l with
  | zero =>
      cases l with
      | nil => cases n <;> simp [List.getD]
      | cons a l => cases n with
        | zero => exact absurd rfl hn
        | succ n => simp [List.getD]
  | succ pos ih =>
      cases l with
      | nil => cases n <;> simp [List.getD]
      | cons a l => simpa [List.getD] using ih l

theorem columnEntry_from_bytes_isOk (b : Bytes) (hl : 21 ≤ b.length)
    (ht : (ColumnType.from_u8 (b.headD 0)).isSome) :
    ∃ ent, ColumnEntry.from_bytes b = .ok ent := by
  unfold ColumnEntry.from_bytes
  rw [if_neg (by simp only [ColumnEntry.SIZE]; omega)]
  rcases hfu : ColumnType.from_u8 (b.headD 0) with _ | t
  · rw [hfu] at ht
    simp at ht
  · exact ⟨_, rfl⟩

theorem readEntries_error_shape (data : Bytes) :
    ∀ n pos e, readEntries data pos n = .error e →
      e = ALICETextError.Io ∨ e = ALICETextError.DecompressionError := by
  intro n
  induction n with
  | zero =>
      intro pos e h
      exact Except.noConfusion h
  | succ n ih =>
      intro pos e h
      simp only [readEntries] at h
      rcases hre : readExact data pos ColumnEntry.SIZE with e1 | v
      · rw [hre, exBindError] at h
        injection h with h2
        subst h2
        exact Or.inl (readExact_error_shape data pos _ _ hre)
      · rw [hre, exBindOk] at h
        rcases v with ⟨eb, pos2⟩
        simp only at h
        rcases hfb : ColumnEntry.from_bytes eb with e2 | ent
        · rw [hfb, exBindError] at h
          injection h with h2
          subst h2
          exact Or.inr (columnEntry_from_bytes_error eb _ hfb)
        · rw [hfb, exBindOk] at h
          rcases hrn : readEntries data pos2 n with e3 | pr
          · rw [hrn, exBindError] at h
            injection h with h2
            subst h2
            exact ih pos2 _ hrn
          · rw [hrn, exBindOk] at h
            rcases pr with ⟨rest, pos3⟩
            simp only at h
            exact Except.noConfusion h

theorem readEntries_truncated_not_ok (data : Bytes) :
    ∀ n pos, data.length < pos + 21 * n → n ≠ 0 →
      (readEntries data pos n).isOk = false := by
  intro n
  induction n with
  | zero =>
      intro pos h h0
      exact absurd rfl h0
  | succ n ih =>
      intro pos h _
      simp only [readEntries]
      by_cases h21 : pos + 21 ≤ data.length
      · rw [show ColumnEntry.SIZE = 21 from rfl, readExact_ok data pos 21 h21, exBindOk]
        simp only
        rcases hfb : ColumnEntry.from_bytes ((data.drop pos).take 21) with e2 | ent
        · rw [exBindError]
          rfl
        · rw [exBindOk]
          have hn : n ≠ 0 := by omega
          have hrec := ih (pos + 21) (by omega) hn
          rcases hrn : readEntries data (pos + 21) n with e3 | pr
          · rw [exBindError]
            rfl
          · rw [hrn] at hrec
            exact absurd hrec (by simp [Except.isOk, Except.toBool])
      · rw [show ColumnEntry.SIZE = 21 from rfl,
          readExact_err data pos 21 (by omega), exBindError]
        rfl

theorem readEntries_truncated_io (data : Bytes) :
    ∀ n pos, data.length < pos + 21 * n → n ≠ 0 →
      (∀ j, pos + 21 * j + 21 ≤ data.length →
        (ColumnType.from_u8 (data.getD (pos + 21 * j) 0)).isSome) →
      readEntries data pos n = .error .Io := by
  intro n
  induction n with
  | zero =>
      intro pos h h0 _
      exact absurd rfl h0
  | succ n ih =>
      intro pos h _ hside
      simp only [readEntries]
      by_cases h21 : pos + 21 ≤ data.length
      · rw [show ColumnEntry.SIZE = 21 from rfl, readExact_ok data pos 21 h21, exBindOk]
        simp only
        have hlen : 21 ≤ ((data.drop pos).take 21).length := by
          simp only [List.length_take, List.length_drop]
          omega
        have hhd : (((data.drop pos).take 21).headD 0) = data.getD pos 0 :=
          headD_drop_take data pos 21 (by omega)
        have ht : (ColumnType.from_u8 (((data.drop pos).take 21).headD 0)).isSome := by
          rw [hhd]
          have := hside 0 (by omega)
          simpa using this
        obtain ⟨ent, hfb⟩ := columnEntry_from_bytes_isOk _ hlen ht
        rw [hfb, exBindOk]
        have hn : n ≠ 0 := by omega
        have hrec := ih (pos + 21) (by omega) hn (by
          intro j hj
          have he : pos + 21 + 21 * j = pos + 21 * (j + 1) := by ring
          rw [he]
          exact hside (j + 1) (by omega))
        rw [hrec, exBindError]
      · rw [show ColumnEntry.SIZE = 21 from rfl,
          readExact_err data pos 21 (by omega), exBindError]

theorem getD_drop_take (l : Bytes) (p n i : Nat) (h : i < n) :
    ((l.drop p).take n).getD i 0 = l.getD (p + i) 0 := by
  simp [List.getD_eq_getElem?_getD, List.getElem?_take, List.getElem?_drop, h]

theorem count_slice (data : Bytes) :
    (((data.drop 10).take 32).drop 9).take 2 = (data.drop 19).take 2 := by
  rw [List.drop_take, List.drop_drop]
  rw [List.take_take]
  norm_num

theorem read_from_trunc_magic (data : Bytes) (h8 : data.length < 8) :
    FormatV3Metadata.read_from data = .error .Io := by
  unfold FormatV3Metadata.read_from
  rw [readExact_err data 0 8 (by omega), exBindError]

theorem read_from_magic_err (data : Bytes) (h8 : 8 ≤ data.length)
    (hm : data.take 8 ≠ ALICE_TEXT_MAGIC) :
    FormatV3Metadata.read_from data = .error .InvalidMagic := by
  unfold FormatV3Metadata.read_from
  rw [readExact_ok data 0 8 (by omega), exBindOk]
  simp only [List.drop_zero, Nat.zero_add]
  rw [if_pos hm]

theorem read_from_trunc_version (data : Bytes) (h8 : 8 ≤ data.length)
    (hm : data.take 8 = ALICE_TEXT_MAGIC) (h10 : data.length < 10) :
    FormatV3Metadata.read_from data = .error .Io := by
  unfold FormatV3Metadata.read_from
  rw [readExact_ok data 0 8 (by omega), exBindOk]
  simp only [List.drop_zero, Nat.zero_add]
  rw [if_neg (by simp [hm])]
  rw [readExact_err data 8 2 (by omega), exBindError]

theorem read_from_version_err (data : Bytes) (h10 : 10 ≤ data.length)
    (hm : data.take 8 = ALICE_TEXT_MAGIC) (hv : data.getD 8 0 ≠ 3) :
    FormatV3Metadata.read_from data =
      .error (.InvalidVersion (data.getD 8 0) (data.getD 9 0)) := by
  unfold FormatV3Metadata.read_from
  rw [readExact_ok data 0 8 (by omega), exBindOk]
  simp only [List.drop_zero, Nat.zero_add]
  rw [if_neg (by simp [hm])]
  rw [readExact_ok data 8 2 (by omega), exBindOk]
  simp only
  rw [headD_drop_take data 8 2 (by omega)]
  rw [if_pos hv]
  rw [getD_drop_take data 8 2 1 (by omega)]

theorem read_from_trunc_header (data : Bytes) (h10 : 10 ≤ data.length)
    (hm : data.take 8 = ALICE_TEXT_MAGIC) (hv : data.getD 8 0 = 3)
    (h42 : data.length < 42) :
    FormatV3Metadata.read_from data = .error .Io := by
  unfold FormatV3Metadata.read_from
  rw [readExact_ok data 0 8 (by omega), exBindOk]
  simp only [List.drop_zero, Nat.zero_add]
  rw [if_neg (by simp [hm])]
  rw [readExact_ok data 8 2 (by omega), exBindOk]
  simp only
  rw [headD_drop_take data 8 2 (by omega)]
  rw [if_neg (by simp only [ne_eq, not_not]; exact hv)]
  rw [show (8 : Nat) + 2 = 10 from rfl, show FormatV3Header.SIZE = 32 from rfl]
  rw [readExact_err data 10 32 (by omega), exBindError]

theorem read_from_dir_error (data : Bytes) (h42 : 42 ≤ data.length)
    (hm : data.take 8 = ALICE_TEXT_MAGIC) (hv : data.getD 8 0 = 3)
    (e : ALICETextError)
    (hre : readEntries data 42 (fromLeBytes ((data.drop 19).take 2)) = .error e) :
    FormatV3Metadata.read_from data = .error e := by
  unfold FormatV3Metadata.read_from
  rw [readExact_ok data 0 8 (by omega), exBindOk]
  simp only [List.drop_zero, Nat.zero_add]
  rw [if_neg (by simp [hm])]
  rw [readExact_ok data 8 2 (by omega), exBindOk]
  simp only
  rw [headD_drop_take data 8 2 (by omega)]
  rw [if_neg (by simp only [ne_eq, not_not]; exact hv)]
  rw [show (8 : Nat) + 2 = 10 from rfl, show FormatV3Header.SIZE = 32 from rfl]
  rw [readExact_ok data 10 32 (by omega), exBindOk]
  simp only
  rw [header_from_bytes_ok _ (by simp only [List.length_take, List.length_drop]; omega),
    exBindOk]
  simp only
  rw [count_slice, show (10 : Nat) + 32 = 42 from rfl]
  rw [hre, exBindError]

theorem read_from_dir_ok (data : Bytes) (h42 : 42 ≤ data.length)
    (hm : data.take 8 = ALICE_TEXT_MAGIC) (hv : data.getD 8 0 = 3)
    (pr : List ColumnEntry × Nat)
    (hre : readEntries data 42 (fromLeBytes ((data.drop 19).take 2)) = .ok pr) :
    ∃ m, FormatV3Metadata.read_from data = .ok m := by
  unfold FormatV3Metadata.read_from
  rw [readExact_ok data 0 8 (by omega), exBindOk]
  simp only [List.drop_zero, Nat.zero_add]
  rw [if_neg (by simp [hm])]
  rw [readExact_ok data 8 2 (by omega), exBindOk]
  simp only
  rw [headD_drop_take data 8 2 (by omega)]
  rw [if_neg (by simp only [ne_eq, not_not]; exact hv)]
  rw [show (8 : Nat) + 2 = 10 from rfl, show FormatV3Header.SIZE = 32 from rfl]
  rw [readExact_ok data 10 32 (by omega), exBindOk]
  simp only
  rw [header_from_bytes_ok _ (by simp only [List.length_take, List.length_drop]; omega),
    exBindOk]
  simp only
  rw [count_slice, show (10 : Nat) + 32 = 42 from rfl]
  rw [hre, exBindOk]
  rcases pr with ⟨cols, pos3⟩
  exact ⟨_, rfl⟩

/-- C6: FormatV3Metadata.read_from returns InvalidMagic exactly when the
input has at least 8 bytes and they differ from ALICETXT; it returns an
InvalidVersion error exactly when the magic matches and the major-version
byte (byte 8) is not 3; and on inputs truncated before the version bytes,
inside the 32-byte header, or inside the column directory it fails with
the Io error that a failed read_exact surfaces (the spec's Truncated kind,
which it declares semantic rather than a type name) instead of panicking
or succeeding; mid-directory truncation always fails, and fails with Io
whenever the directory entries that are fully present carry valid column
tags (an invalid tag in an earlier complete entry surfaces the
DecompressionError of ColumnEntry.from_bytes first). -/
theorem c6_read_from_errors (data : Bytes) :
    (FormatV3Metadata.read_from data = .error .InvalidMagic ↔
      8 ≤ data.length ∧ data.take 8 ≠ ALICE_TEXT_MAGIC) ∧
    ((∃ a b, FormatV3Metadata.read_from data = .error (.InvalidVersion a b)) ↔
      10 ≤ data.length ∧ data.take 8 = ALICE_TEXT_MAGIC ∧ data.getD 8 0 ≠ 3) ∧
    (8 ≤ data.length → data.take 8 = ALICE_TEXT_MAGIC → data.length < 10 →
      FormatV3Metadata.read_from data = .error .Io) ∧
    (10 ≤ data.length → data.take 8 = ALICE_TEXT_MAGIC → data.getD 8 0 = 3 →
      data.length < 42 → FormatV3Metadata.read_from data = .error .Io) ∧
    (42 ≤ data.length → data.take 8 = ALICE_TEXT_MAGIC → data.getD 8 0 = 3 →
      data.length < 42 + 21 * fromLeBytes ((data.drop 19).take 2) →
      (FormatV3Metadata.read_from data).isOk = false) ∧
    (42 ≤ data.length → data.take 8 = ALICE_TEXT_MAGIC → data.getD 8 0 = 3 →
      data.length < 42 + 21 * fromLeBytes ((data.drop 19).take 2) →
      (∀ j, 42 + 21 * j + 21 ≤ data.length →
        (ColumnType.from_u8 (data.getD (42 + 21 * j) 0)).isSome) →
      FormatV3Metadata.read_from data = .error .Io) := by
  refine ⟨⟨?_, ?_⟩, ⟨?_, ?_⟩, ?_, ?_, ?_, ?_⟩
  · intro h
    by_cases h8 : 8 ≤ data.length
    · by_cases hm : data.take 8 = ALICE_TEXT_MAGIC
      · exfalso
        by_cases h10 : 10 ≤ data.length
        · by_cases hv : data.getD 8 0 = 3
          · by_cases h42 : 42 ≤ data.length
            · rcases hre : readEntries data 42 (fromLeBytes ((data.drop 19).take 2))
                with e | pr
              · rw [read_from_dir_error data h42 hm hv e hre] at h
                injection h with h2
                subst h2
                rcases readEntries_error_shape data _ _ _ hre with h3 | h3 <;>
                  exact ALICETextError.noConfusion h3
              · obtain ⟨m, hok⟩ := read_from_dir_ok data h42 hm hv pr hre
                rw [hok] at h
                exact Except.noConfusion h
            · rw [read_from_trunc_header data h10 hm hv (by omega)] at h
              injection h with h2
              exact ALICETextError.noConfusion h2
          · rw [read_from_version_err data h10 hm hv] at h
            injection h with h2
            exact ALICETextError.noConfusion h2
        · rw [read_from_trunc_version data h8 hm (by omega)] at h
          injection h with h2
          exact ALICETextError.noConfusion h2
      · exact ⟨h8, hm⟩
    · rw [read_from_trunc_magic data (by omega)] at h
      injection h with h2
      exact ALICETextError.noConfusion h2
  · rintro ⟨h8, hm⟩
    exact read_from_magic_err data h8 hm
  · rintro ⟨a, b, h⟩
    by_cases h8 : 8 ≤ data.length
    · by_cases hm : data.take 8 = ALICE_TEXT_MAGIC
      · by_cases h10 : 10 ≤ data.length
        · by_cases hv : data.getD 8 0 = 3
          · exfalso
            by_cases h42 : 42 ≤ data.length
            · rcases hre : readEntries data 42 (fromLeBytes ((data.drop 19).take 2))
                with e | pr
              · rw [read_from_dir_error data h42 hm hv e hre] at h
                injection h with h2
                subst h2
                rcases readEntries_error_shape data _ _ _ hre with h3 | h3 <;>
                  exact ALICETextError.noConfusion h3
              · obtain ⟨m, hok⟩ := read_from_dir_ok data h42 hm hv pr hre
                rw [hok] at h
                exact Except.noConfusion h
            · rw [read_from_trunc_header data h10 hm hv (by omega)] at h
              injection h with h2
              exact ALICETextError.noConfusion h2
          · exact ⟨h10, hm, hv⟩
        · exfalso
          rw [read_from_trunc_version data h8 hm (by omega)] at h
          injection h with h2
          exact ALICETextError.noConfusion h2
      · exfalso
        rw [read_from_magic_err data h8 hm] at h
        injection h with h2
        exact ALICETextError.noConfusion h2
    · exfalso
      rw [read_from_trunc_magic data (by omega)] at h
      injection h with h2
      exact ALICETextError.noConfusion h2
  · rintro ⟨h10, hm, hv⟩
    exact ⟨_, _, read_from_version_err data h10 hm hv⟩
  · intro h8 hm h10
    exact read_from_trunc_version data h8 hm h10
  · intro h10 hm hv h42
    exact read_from_trunc_header data h10 hm hv h42
  · intro h42 hm hv hlen
    rcases hre : readEntries data 42 (fromLeBytes ((data.drop 19).take 2)) with e | pr
    · rw [read_from_dir_error data h42 hm hv e hre]
      rfl
    · exfalso
      have hnot := readEntries_truncated_not_ok data
        (fromLeBytes ((data.drop 19).take 2)) 42 (by omega) (by omega)
      rw [hre] at hnot
      exact absurd hnot (by simp [Except.isOk, Except.toBool])
  · intro h42 hm hv hlen hside
    have hre := readEntries_truncated_io data
      (fromLeBytes ((data.drop 19).take 2)) 42 (by omega) (by omega) hside
    exact read_from_dir_error data h42 hm hv .Io hre

/-- A container prefix whose header declares one directory entry but whose
data ends at the header: truncated mid-directory. -/
def c6TruncData : Bytes :=
  ALICE_TEXT_MAGIC ++ [3, 0] ++ (List.replicate 9 0 ++ [1, 0] ++ List.replicate 21 0)

theorem c6_read_from_errors_witness :
    FormatV3Metadata.read_from c6TruncData = .error .Io ∧
    FormatV3Metadata.read_from (List.replicate 8 0) = .error .InvalidMagic ∧
    (∃ a b, FormatV3Metadata.read_from (ALICE_TEXT_MAGIC ++ [9, 0]) =
      .error (.InvalidVersion a b)) := by
  refine ⟨?_, ?_, ?_⟩
  · refine (c6_read_from_errors c6TruncData).2.2.2.2.2 (by decide) (by decide) (by decide)
      (by decide) ?_
    intro j hj
    have hl : c6TruncData.length = 42 := by decide
    rw [hl] at hj
    exact absurd hj (by omega)
  · exact (c6_read_from_errors (List.replicate 8 0)).1.mpr ⟨by decide, by decide⟩
  · exact (c6_read_from_errors (ALICE_TEXT_MAGIC ++ [9, 0])).2.1.mpr
      ⟨by decide, by decide, by decide⟩

/-! ## Claim C4: find_matches acceptance, priority and ordering -/

theorem insertByKey_perm {α : Type} (key : α → Nat) (x : α) (l : List α) :
    (insertByKey key x l).Perm (x :: l) := by
  induction l with
  | nil => exact List.Perm.refl _
  | cons y l ih =>
      unfold insertByKey
      split
      · exact (ih.cons y).trans (List.Perm.swap x y l)
      · exact List.Perm.refl _

theorem sortByKey_perm {α : Type} (key : α → Nat) (l : List α) :
    (sortByKey key l).Perm l := by
  induction l with
  | nil => exact List.Perm.refl _
  | cons x l ih =>
      unfold sortByKey
      exact (insertByKey_perm key x (sortByKey key l)).trans (ih.cons x)

theorem insertByKey_sorted {α : Type} (key : α → Nat) (x : α) (l : List α)
    (h : l.Pairwise (fun a b => key a ≤ key b)) :
    (insertByKey key x l).Pairwise (fun a b => key a ≤ key b) := by
  induction l with
  | nil => simp [insertByKey]
  | cons y l ih =>
      rcases List.pairwise_cons.mp h with ⟨hy, hl⟩
      unfold insertByKey
      split
      · rename_i hlt
        refine List.pairwise_cons.mpr ⟨?_, ih hl⟩
        intro b hb
        have hmem := (insertByKey_perm key x l).mem_iff.mp hb
        rcases List.mem_cons.mp hmem with rfl | hbl
        · omega
        · exact hy b hbl
      · rename_i hge
        refine List.pairwise_cons.mpr ⟨?_, h⟩
        intro b hb
        rcases List.mem_cons.mp hb with rfl | hbl
        · omega
        · exact le_trans (by omega) (hy b hbl)

theorem sortByKey_sorted {α : Type} (key : α → Nat) (l : List α) :
    (sortByKey key l).Pairwise (fun a b => key a ≤ key b) := by
  induction l with
  | nil => simp [sortByKey]
  | cons x l ih =>
      unfold sortByKey
      exact insertByKey_sorted key x (sortByKey key l) ih

theorem anyCovered_eq_false (covered : Nat → Bool) (s e : Nat)
    (h : anyCovered covered s e = false) :
    ∀ j, s ≤ j → j < e → covered j = false := by
  intro j h1 h2
  unfold anyCovered at h
  rw [List.any_eq_false] at h
  have hj : j ∈ List.range' s (e - s) := by
    rw [List.mem_range'_1]
    omega
  have := h j hj
  simpa using this

theorem anyCovered_eq_true (covered : Nat → Bool) (s e : Nat)
    (h : anyCovered covered s e = true) :
    ∃ j, s ≤ j ∧ j < e ∧ covered j = true := by
  unfold anyCovered at h
  rw [List.any_eq_true] at h
  obtain ⟨j, hj, hcj⟩ := h
  rw [List.mem_range'_1] at hj
  exact ⟨j, by omega, by omega, hcj⟩

theorem markCovered_false (covered : Nat → Bool) (s e j : Nat)
    (h : markCovered covered s e j = false) :
    covered j = false ∧ ¬(s ≤ j ∧ j < e) := by
  unfold markCovered at h
  split at h
  · exact absurd h (by simp)
  · rename_i hc
    refine ⟨h, ?_⟩
    intro ⟨h1, h2⟩
    exact hc (by simp [h1, h2])

theorem markCovered_true (covered : Nat → Bool) (s e j : Nat)
    (h : markCovered covered s e j = true) :
    (s ≤ j ∧ j < e) ∨ covered j = true := by
  unfold markCovered at h
  split at h
  · rename_i hc
    left
    simpa using hc
  · right
    exact h

theorem findMatchesGo_uncovered (text : Str) :
    ∀ cands covered m, m ∈ findMatchesGo text cands covered →
      ∀ j, m.start ≤ j → j < m.endPos → covered j = false := by
  intro cands
  induction cands with
  | nil =>
      intro covered m hm
      simp [findMatchesGo] at hm
  | cons c rest ih =>
      intro covered m hm
      rcases c with ⟨s, pt, e⟩
      unfold findMatchesGo at hm
      split at hm
      · exact ih covered m hm
      · rename_i hac
        rcases List.mem_cons.mp hm with rfl | hm2
        · intro j h1 h2
          exact anyCovered_eq_false covered s e (by simpa using hac) j h1 h2
        · intro j h1 h2
          have := ih (markCovered covered s e) m hm2 j h1 h2
          exact (markCovered_false covered s e j this).1

theorem findMatchesGo_pairwise (text : Str) :
    ∀ cands covered, (findMatchesGo text cands covered).Pairwise
      (fun a b => ∀ j, ¬(a.start ≤ j ∧ j < a.endPos ∧ b.start ≤ j ∧ j < b.endPos)) := by
  intro cands
  induction cands with
  | nil =>
      intro covered
      simp [findMatchesGo]
  | cons c rest ih =>
      intro covered
      rcases c with ⟨s, pt, e⟩
      unfold findMatchesGo
      split
      · exact ih covered
      · refine List.pairwise_cons.mpr ⟨?_, ih (markCovered covered s e)⟩
        intro b hb j hj
        obtain ⟨h1, h2, h3, h4⟩ := hj
        have h5 := findMatchesGo_uncovered text rest (markCovered covered s e) b hb j h3 h4
        exact (markCovered_false covered s e j h5).2 ⟨h1, h2⟩

theorem findMatchesGo_mem (text : Str) :
    ∀ cands covered m, m ∈ findMatchesGo text cands covered →
      (m.start, m.pattern_type, m.endPos) ∈ cands ∧
      m.matched_text = (text.drop m.start).take (m.endPos - m.start) := by
  intro cands
  induction cands with
  | nil =>
      intro covered m hm
      simp [findMatchesGo] at hm
  | cons c rest ih =>
      intro covered m hm
      rcases c with ⟨s, pt, e⟩
      unfold findMatchesGo at hm
      split at hm
      · obtain ⟨h1, h2⟩ := ih covered m hm
        exact ⟨List.mem_cons_of_mem _ h1, h2⟩
      · rcases List.mem_cons.mp hm with rfl | hm2
        · exact ⟨List.mem_cons_self _ _, rfl⟩
        · obtain ⟨h1, h2⟩ := ih (markCovered covered s e) m hm2
          exact ⟨List.mem_cons_of_mem _ h1, h2⟩

theorem firstHitAux_findAt (text : Str) :
    ∀ fuel pos s pt e, firstHitAux text pos fuel = some (s, pt, e) →
      findAt text s = some (pt, e) := by
  intro fuel
  induction fuel with
  | zero =>
      intro pos s pt e h
      exact Option.noConfusion h
  | succ fuel ih =>
      intro pos s pt e h
      unfold firstHitAux at h
      rcases hf : findAt text pos with _ | pr
      · rw [hf] at h
        exact ih (pos + 1) s pt e h
      · rw [hf] at h
        rcases pr with ⟨pt2, e2⟩
        simp only at h
        injection h with h2
        injection h2 with ha hb
        injection hb with hb1 hb2
        subst ha
        subst hb1
        subst hb2
        exact hf

theorem scanFrom_mem_findAt (text : Str) :
    ∀ fuel pos c, c ∈ scanFrom text pos fuel →
      findAt text c.1 = some (c.2.1, c.2.2) := by
  intro fuel
  induction fuel with
  | zero =>
      intro pos c hc
      simp [scanFrom] at hc
  | succ fuel ih =>
      intro pos c hc
      unfold scanFrom at hc
      rcases hf : firstHit text pos with _ | tr
      · rw [hf] at hc
        simp at hc
      · rw [hf] at hc
        rcases tr with ⟨s, pt, e⟩
        simp only at hc
        rcases List.mem_cons.mp hc with rfl | hc2
        · exact firstHitAux_findAt text _ pos s pt e hf
        · exact ih e c hc2

theorem head_filterMap_first {α β : Type} (f : α → Option β) :
    ∀ (l : List α) y, (l.filterMap f).head? = some y →
      ∃ k x, l.get? k = some x ∧ f x = some y ∧
        ∀ j x2, j < k → l.get? j = some x2 → f x2 = none := by
  intro l
  induction l with
  | nil =>
      intro y h
      simp at h
  | cons a l ih =>
      intro y h
      rcases hf : f a with _ | y2
      · rw [List.filterMap_cons, hf] at h
        obtain ⟨k, x, h1, h2, h3⟩ := ih y h
        refine ⟨k + 1, x, h1, h2, ?_⟩
        intro j x2 hj hx2
        cases j with
        | zero =>
            injection hx2 with hx2
            subst hx2
            exact hf
        | succ j => exact h3 j x2 (by omega) hx2
      · rw [List.filterMap_cons, hf] at h
        simp only [List.head?] at h
        injection h with h2
        subst h2
        exact ⟨0, a, rfl, hf, fun j x2 hj _ => absurd hj (by omega)⟩

theorem findAt_priority (text : Str) (s : Nat) (pt : PatternType) (e : Nat)
    (h : findAt text s = some (pt, e)) :
    ∃ k pd len, PATTERNS.get? k = some pd ∧ pd.pattern_type = pt ∧
      firstMatchLen pd.matcher (text.drop s) = some len ∧ e = s + len ∧
      ∀ j pd2, j < k → PATTERNS.get? j = some pd2 →
        firstMatchLen pd2.matcher (text.drop s) = none := by
  unfold findAt at h
  obtain ⟨k, pd, h1, h2, h3⟩ := head_filterMap_first _ PATTERNS (pt, e) h
  rcases hfm : firstMatchLen pd.matcher (text.drop s) with _ | len
  · rw [hfm] at h2
    exact Option.noConfusion h2
  · rw [hfm] at h2
    simp only [Option.map] at h2
    injection h2 with h2
    injection h2 with ha hb
    refine ⟨k, pd, len, h1, ha, hfm, hb.symm, ?_⟩
    intro j pd2 hj hg
    have h4 := h3 j pd2 hj hg
    rcases hfm2 : firstMatchLen pd2.matcher (text.drop s) with _ | l2
    · rfl
    · rw [hfm2] at h4
      simp [Option.map] at h4

theorem findMatchesGo_complete (text : Str) :
    ∀ cands covered c, c ∈ cands →
      ({ pattern_type := c.2.1, start := c.1, endPos := c.2.2,
         matched_text := (text.drop c.1).take (c.2.2 - c.1) } : TunedMatch)
          ∈ findMatchesGo text cands covered ∨
      (∃ j, c.1 ≤ j ∧ j < c.2.2 ∧ covered j = true) ∨
      (∃ m ∈ findMatchesGo text cands covered, ∃ j, c.1 ≤ j ∧ j < c.2.2 ∧
        m.start ≤ j ∧ j < m.endPos) := by
  intro cands
  induction cands with
  | nil =>
      intro covered c hc
      simp at hc
  | cons c0 rest ih =>
      intro covered c hc
      rcases c0 with ⟨s, pt, e⟩
      rcases List.mem_cons.mp hc with rfl | hcr
      · unfold findMatchesGo
        split
        · rename_i hac
          right
          left
          obtain ⟨j, h1, h2, h3⟩ := anyCovered_eq_true covered s e (by simpa using hac)
          exact ⟨j, h1, h2, h3⟩
        · left
          exact List.mem_cons_self _ _
      · unfold findMatchesGo
        split
        · exact ih covered c hcr
        · rename_i hac
          rcases ih (markCovered covered s e) c hcr with h | ⟨j, h1, h2, h3⟩ | h
          · left
            exact List.mem_cons_of_mem _ h
          · rcases markCovered_true covered s e j h3 with hin | hcov
            · right
              right
              exact ⟨_, List.mem_cons_self _ _, j, h1, h2, hin.1, hin.2⟩
            · right
              left
              exact ⟨j, h1, h2, hcov⟩
          · obtain ⟨m, hm, j, h1, h2, h3, h4⟩ := h
            right
            right
            exact ⟨m, List.mem_cons_of_mem _ hm, j, h1, h2, h3, h4⟩

/-- C4: on every input, find_matches returns matches sorted by start offset
and pairwise non-overlapping; every returned match is a candidate of the
fused scan whose text is the matched slice, and its kind is the first
pattern of the fixed catalog order TIMESTAMP, UUID, EMAIL, URL, IPV6, IPV4,
DATE, TIME, PATH, HEX, LOGLEVEL, NUMBER that matches at its start; and
every candidate of the fused scan is either accepted verbatim or overlaps
an accepted match, so a candidate is dropped only when its range is
already covered. -/
theorem c4_find_matches (text : Str) :
    PATTERNS.map (fun pd => pd.name) =
      ["TIMESTAMP", "UUID", "EMAIL", "URL", "IPV6", "IPV4", "DATE", "TIME",
       "PATH", "HEX", "LOGLEVEL", "NUMBER"] ∧
    (find_matches text).Pairwise (fun a b => a.start ≤ b.start) ∧
    (find_matches text).Pairwise (fun a b =>
      ∀ j, ¬(a.start ≤ j ∧ j < a.endPos ∧ b.start ≤ j ∧ j < b.endPos)) ∧
    (∀ m ∈ find_matches text,
      (m.start, m.pattern_type, m.endPos) ∈ capturesList text ∧
      m.matched_text = (text.drop m.start).take (m.endPos - m.start) ∧
      ∃ k pd len, PATTERNS.get? k = some pd ∧ pd.pattern_type = m.pattern_type ∧
        firstMatchLen pd.matcher (text.drop m.start) = some len ∧
        m.endPos = m.start + len ∧
        ∀ j pd2, j < k → PATTERNS.get? j = some pd2 →
          firstMatchLen pd2.matcher (text.drop m.start) = none) ∧
    (∀ c ∈ capturesList text,
      ({ pattern_type := c.2.1, start := c.1, endPos := c.2.2,
         matched_text := (text.drop c.1).take (c.2.2 - c.1) } : TunedMatch)
          ∈ find_matches text ∨
      ∃ m ∈ find_matches text, ∃ j, c.1 ≤ j ∧ j < c.2.2 ∧
        m.start ≤ j ∧ j < m.endPos) := by
  have hperm := sortByKey_perm (fun m : TunedMatch => m.start)
    (findMatchesGo text (capturesList text) (fun _ => false))
  refine ⟨rfl, ?_, ?_, ?_, ?_⟩
  · exact sortByKey_sorted _ _
  · have hsymm : Symmetric (fun a b : TunedMatch =>
        ∀ j, ¬(a.start ≤ j ∧ j < a.endPos ∧ b.start ≤ j ∧ j < b.endPos)) := by
      intro a b hab j hj
      exact hab j ⟨hj.2.2.1, hj.2.2.2, hj.1, hj.2.1⟩
    exact (hperm.pairwise_iff (fun h => hsymm h)).mpr
      (findMatchesGo_pairwise text (capturesList text) (fun _ => false))
  · intro m hm
    have hbase := hperm.mem_iff.mp hm
    obtain ⟨h1, h2⟩ := findMatchesGo_mem text (capturesList text) (fun _ => false) m hbase
    have hfa := scanFrom_mem_findAt text (text.length + 1) 0 _ h1
    obtain ⟨k, pd, len, g1, g2, g3, g4, g5⟩ :=
      findAt_priority text m.start m.pattern_type m.endPos hfa
    exact ⟨h1, h2, k, pd, len, g1, g2, g3, g4, g5⟩
  · intro c hc
    rcases findMatchesGo_complete text (capturesList text) (fun _ => false) c hc
      with h | ⟨j, _, _, h3⟩ | ⟨m, hm, j, h1, h2, h3, h4⟩
    · left
      exact hperm.mem_iff.mpr h
    · exact absurd h3 (by simp)
    · right
      exact ⟨m, hperm.mem_iff.mpr hm, j, h1, h2, h3, h4⟩

theorem c4_find_matches_witness :
    (0, PatternType.LogLevel, 4) ∈ capturesList ['I', 'N', 'F', 'O'] ∧
    (({ pattern_type := PatternType.LogLevel, start := 0, endPos := 4,
        matched_text := (['I', 'N', 'F', 'O'].drop 0).take (4 - 0) } : TunedMatch)
        ∈ find_matches ['I', 'N', 'F', 'O'] ∨
      ∃ m ∈ find_matches ['I', 'N', 'F', 'O'], ∃ j, 0 ≤ j ∧ j < 4 ∧
        m.start ≤ j ∧ j < m.endPos) := by
  refine ⟨?_, ?_⟩
  · exact ((c4_find_matches ['I', 'N', 'F', 'O']).2.2.2.1
      ⟨PatternType.LogLevel, 0, 4, ['I', 'N', 'F', 'O']⟩ (by decide)).1
  · exact (c4_find_matches ['I', 'N', 'F', 'O']).2.2.2.2
      (0, PatternType.LogLevel, 4) (by decide)

/-! ## Claim C3: Eq filter versus canonical string equality -/

/-- A timestamps column holding one whole-second and one sub-second cell
of the same rendered second. -/
def c3Cols : PartialPayload :=
  { timestamps := some (addAll ["2024-01-15 10:30:45".data,
      "2024-01-15 10:30:45.5".data]) }

/-- C3 counterexample: on the sub-second column, the Eq filter keeps only
index 0 although the canonical string of both cells equals the canonical
string of the queried value, so the returned index set is not the
canonical-string-equality set. -/
theorem c3_timestamp_eq_not_canonical :
    filter_op c3Cols "timestamps".data .Eq "2024-01-15 10:30:45".data = .ok [0] ∧
    stringsOfColumn (read_raw_column c3Cols .Timestamps) .Timestamps =
      ["2024-01-15 10:30:45".data, "2024-01-15 10:30:45".data] ∧
    scan_strings (stringsOfColumn (read_raw_column c3Cols .Timestamps) .Timestamps)
      .Eq "2024-01-15 10:30:45".data = [0, 1] ∧
    ([0] : List Nat) ≠ [0, 1] := by
  refine ⟨by decide, by decide, by decide, by decide⟩

theorem scanFilter_congr {α β : Type} (p : α → Bool) (q : β → Bool) (fmt : α → β) :
    ∀ (data : List α) n, (∀ c ∈ data, q (fmt c) = p c) →
      (((List.enumFrom n (data.map fmt)).filter (fun iv => q iv.2)).map (fun iv => iv.1)) =
      (((List.enumFrom n data).filter (fun iv => p iv.2)).map (fun iv => iv.1)) := by
  intro data
  induction data with
  | nil =>
      intro n h
      rfl
  | cons c l ih =>
      intro n h
      simp only [List.map_cons, List.enumFrom]
      rw [List.filter_cons, List.filter_cons]
      have hc : q (fmt c) = p c := h c (List.mem_cons_self c l)
      simp only [hc]
      have ht := ih (n + 1) (fun c2 hc2 => h c2 (List.mem_cons_of_mem _ hc2))
      cases hp : p c
      · simp only [hp, Bool.false_eq_true, if_false]
        exact ht
      · simp only [hp, if_true, List.map_cons]
        rw [ht]

theorem scan_eq_canonical {α : Type} [LinearOrder α] (data : List α)
    (fmt : α → Str) (t : α)
    (hinj : ∀ c ∈ data, fmt c = fmt t → c = t) :
    scan_strings (data.map fmt) .Eq (fmt t) = scan_primitive data .Eq t := by
  unfold scan_strings scan_primitive List.enum
  exact scanFilter_congr (fun c => decide (c = t)) (fun s => decide (s = fmt t)) fmt data 0
    (by
      intro c hc
      by_cases h : c = t
      · subst h
        simp
      · have h2 : fmt c ≠ fmt t := fun he => h (hinj c hc he)
        simp [h, h2])

theorem logLevel_fmt_inj : ∀ a < 8, ∀ b < 8,
    (LogLevel.from_u8 a).to_str = (LogLevel.from_u8 b).to_str → a = b := by decide

theorem from_u8_toU8 : ∀ lvl : LogLevel, LogLevel.from_u8 lvl.toU8 = lvl := by
  intro lvl
  cases lvl <;> rfl

theorem toU8_lt : ∀ lvl : LogLevel, lvl.toU8 < 8 := by
  intro lvl
  cases lvl <;> decide

theorem toHexPad_length : ∀ w v, (toHexPad w v).length = w := by
  intro w
  induction w with
  | zero => intro v; rfl
  | succ w ih =>
      intro v
      simp [toHexPad, ih]

theorem hexDigitChar_inj : ∀ a < 16, ∀ b < 16,
    hexDigitChar a = hexDigitChar b → a = b := by decide

theorem toHexPad_inj : ∀ w, ∀ a < 16 ^ w, ∀ b < 16 ^ w,
    toHexPad w a = toHexPad w b → a = b := by
  intro w
  induction w with
  | zero =>
      intro a ha b hb _
      simp at ha hb
      omega
  | succ w ih =>
      intro a ha b hb h
      unfold toHexPad at h
      obtain ⟨h3, h4⟩ := List.append_inj h (by simp [toHexPad_length])
      injection h4 with hx _
      have h5 : a % 16 = b % 16 :=
        hexDigitChar_inj _ (Nat.mod_lt _ (by omega)) _ (Nat.mod_lt _ (by omega)) hx
      have hpow : 16 ^ (w + 1) = 16 ^ w * 16 := by ring
      have h6 : a / 16 = b / 16 :=
        ih (a / 16) (Nat.div_lt_of_lt_mul (by omega)) (b / 16)
          (Nat.div_lt_of_lt_mul (by omega)) h3
      omega

theorem uuid_segs (l : Str) :
    l.take 8 ++ ((l.drop 8).take 4 ++ ((l.drop 12).take 4 ++
      ((l.drop 16).take 4 ++ l.drop 20))) = l := by
  have h1 : (l.drop 8).drop 4 = l.drop 12 := by rw [List.drop_drop]
  have h2 : (l.drop 12).drop 4 = l.drop 16 := by rw [List.drop_drop]
  have h3 : (l.drop 16).drop 4 = l.drop 20 := by rw [List.drop_drop]
  conv_lhs => rw [← h3, List.take_append_drop, ← h2, List.take_append_drop,
    ← h1, List.take_append_drop, List.take_append_drop]

theorem toHexPad_ne_dash : ∀ w v, ∀ c ∈ toHexPad w v, c ≠ '-' := by
  intro w
  induction w with
  | zero =>
      intro v c hc
      simp [toHexPad] at hc
  | succ w ih =>
      intro v c hc
      unfold toHexPad at hc
      rcases List.mem_append.mp hc with h | h
      · exact ih _ c h
      · have h2 := List.mem_singleton.mp h
        subst h2
        have h3 : ∀ n < 16, hexDigitChar n ≠ '-' := by decide
        exact h3 _ (Nat.mod_lt _ (by omega))

theorem filter_format_uuid (u : Nat) :
    (format_uuid u).filter (fun c => decide (c ≠ '-')) = toHexPad 32 u := by
  have key : format_uuid u =
      (toHexPad 32 u).take 8 ++ '-' :: (((toHexPad 32 u).drop 8).take 4 ++
        '-' :: (((toHexPad 32 u).drop 12).take 4 ++
          '-' :: (((toHexPad 32 u).drop 16).take 4 ++
            '-' :: (toHexPad 32 u).drop 20))) := rfl
  rw [key]
  simp only [List.filter_append, List.filter_cons]
  have hd : (decide (('-' : Char) ≠ '-')) = false := by decide
  simp only [hd, Bool.false_eq_true, if_false]
  have hp : ∀ c ∈ toHexPad 32 u, (fun c => decide (c ≠ '-')) c = true := by
    intro c hc
    simpa using toHexPad_ne_dash 32 u c hc
  rw [List.filter_eq_self.mpr (fun c hc => hp c (List.mem_of_mem_take hc)),
    List.filter_eq_self.mpr (fun c hc => hp c (List.mem_of_mem_drop (List.mem_of_mem_take hc))),
    List.filter_eq_self.mpr (fun c hc => hp c (List.mem_of_mem_drop (List.mem_of_mem_take hc))),
    List.filter_eq_self.mpr (fun c hc => hp c (List.mem_of_mem_drop (List.mem_of_mem_take hc))),
    List.filter_eq_self.mpr (fun c hc => hp c (List.mem_of_mem_drop hc))]
  exact uuid_segs (toHexPad 32 u)

theorem format_uuid_inj (a : Nat) (ha : a < 16 ^ 32) (b : Nat) (hb : b < 16 ^ 32)
    (h : format_uuid a = format_uuid b) : a = b := by
  have h2 := congrArg (List.filter (fun c => decide (c ≠ '-'))) h
  rw [filter_format_uuid, filter_format_uuid] at h2
  exact toHexPad_inj 32 a ha b hb h2

theorem hexVal_lt (c : Char) (h : isHexDigit c = true) : hexVal c < 16 := by
  unfold isHexDigit isAsciiDigit at h
  unfold hexVal isAsciiDigit
  simp only [Bool.or_eq_true, Bool.and_eq_true, decide_eq_true_eq] at h
  split
  · rename_i h2
    simp only [Bool.and_eq_true, decide_eq_true_eq] at h2
    omega
  · split <;> omega

theorem hexFoldl_lt :
    ∀ (l : Str) (n : Nat) (acc : Nat), (∀ c ∈ l, isHexDigit c = true) →
      acc < 16 ^ n → l.foldl (fun a c => a * 16 + hexVal c) acc < 16 ^ (n + l.length) := by
  intro l
  induction l with
  | nil =>
      intro n acc _ ha
      simpa using ha
  | cons c l ih =>
      intro n acc hl ha
      simp only [List.foldl_cons, List.length_cons]
      have hc : hexVal c < 16 := hexVal_lt c (hl c (List.mem_cons_self c l))
      have hstep : acc * 16 + hexVal c < 16 ^ (n + 1) := by
        have : 16 ^ (n + 1) = 16 ^ n * 16 := by ring
        omega
      have := ih (n + 1) (acc * 16 + hexVal c)
        (fun c2 hc2 => hl c2 (List.mem_cons_of_mem _ hc2)) hstep
      have he : n + 1 + l.length = n + (l.length + 1) := by omega
      rw [he] at this
      exact this

theorem parse_uuid_lt (s : Str) (t : Nat) (h : parse_uuid s = some t) : t < 16 ^ 32 := by
  unfold parse_uuid at h
  simp only at h
  split at h
  · rename_i hlen
    injection h with h2
    subst h2
    have hhex : ∀ c ∈ s.filter isHexDigit, isHexDigit c = true := by
      intro c hc
      exact List.of_mem_filter hc
    have := hexFoldl_lt (s.filter isHexDigit) 0 0 hhex (by norm_num)
    rw [hlen] at this
    simpa using this
  · exact Option.noConfusion h

/-- The value takeDigitsUpTo assigns to a digit string: most significant
digit scaled by the count of remaining digits. -/
def dsVal : Str → Nat
  | [] => 0
  | c :: l => (c.toNat - 48) * 10 ^ l.length + dsVal l

theorem takeDigitsUpTo_append :
    ∀ (ds : Str) (rest : Str) (mx : Nat), ds.all isAsciiDigit = true →
      ds.length ≤ mx →
      (match rest with | [] => True | c :: _ => isAsciiDigit c = false) →
      takeDigitsUpTo mx (ds ++ rest) = (dsVal ds, ds.length, rest) := by
  intro ds
  induction ds with
  | nil =>
      intro rest mx _ _ hrest
      cases mx with
      | zero =>
          cases rest with
          | nil => rfl
          | cons c l => rfl
      | succ m =>
          cases rest with
          | nil => rfl
          | cons c l =>
              simp only [List.nil_append, takeDigitsUpTo, hrest]
              rw [if_neg (by simp [hrest])]
              rfl
  | cons c ds ih =>
      intro rest mx hall hlen hrest
      cases mx with
      | zero => simp at hlen
      | succ m =>
          simp only [List.all_cons, Bool.and_eq_true] at hall
          simp only [List.cons_append, takeDigitsUpTo, hall.1, if_true, List.append_eq]
          rw [ih rest m hall.2 (by simpa using hlen) hrest]
          simp [dsVal]

theorem natRepr_octet_facts : ∀ o < 256, (natRepr o).all isAsciiDigit = true ∧
    (natRepr o).length ≤ 3 ∧ (natRepr o).length ≠ 0 ∧ dsVal (natRepr o) = o ∧
    ((natRepr o).head? = some '0' → (natRepr o).length = 1) := by decide

theorem readOctet_natRepr (o : Nat) (ho : o < 256) (rest : Str)
    (hrest : match rest with | [] => True | c :: _ => isAsciiDigit c = false) :
    readOctet (natRepr o ++ rest) = some (o, rest) := by
  obtain ⟨h1, h2, h3, h4, h5⟩ := natRepr_octet_facts o ho
  unfold readOctet
  rw [takeDigitsUpTo_append (natRepr o) rest 3 h1 h2 hrest]
  simp only
  rw [if_neg h3]
  have hguard : (decide (1 < (natRepr o).length) &&
      decide ((natRepr o ++ rest).head? = some '0')) = false := by
    rcases hnr : natRepr o with _ | ⟨c, cs⟩
    · rw [hnr] at h3
      simp at h3
    · simp only [List.cons_append, List.head?]
      by_cases hc : c = '0'
      · subst hc
        have := h5 (by rw [hnr]; rfl)
        rw [hnr] at this
        simp only [List.length_cons] at this
        have hcs : cs.length = 0 := by omega
        simp [hcs]
      · simp [hc]
  rw [hguard]
  simp only [Bool.false_eq_true, if_false]
  rw [if_neg (by omega), h4]

theorem optBindSome {α β : Type} (a : α) (f : α → Option β) :
    (some a >>= f) = f a := rfl

theorem parseCh_cons (c : Char) (l : Str) : parseCh c (c :: l) = some l := by
  unfold parseCh
  simp

theorem parse_format_ipv4 (v : Nat) (hv : v < 2 ^ 32) :
    parse_ipv4 (format_ipv4 v) = some v := by
  have hfmt : format_ipv4 v =
      natRepr (v / 2 ^ 24 % 256) ++ ('.' :: (natRepr (v / 2 ^ 16 % 256) ++
        ('.' :: (natRepr (v / 2 ^ 8 % 256) ++ ('.' :: (natRepr (v % 256) ++ [])))))) := by
    simp [format_ipv4, List.append_assoc]
  rw [hfmt]
  unfold parse_ipv4 parse_ipv4Partial
  rw [readOctet_natRepr _ (Nat.mod_lt _ (by omega)) _ (by show isAsciiDigit '.' = false; decide), optBindSome]
  simp only
  rw [parseCh_cons, optBindSome]
  rw [readOctet_natRepr _ (Nat.mod_lt _ (by omega)) _ (by show isAsciiDigit '.' = false; decide), optBindSome]
  simp only
  rw [parseCh_cons, optBindSome]
  rw [readOctet_natRepr _ (Nat.mod_lt _ (by omega)) _ (by show isAsciiDigit '.' = false; decide), optBindSome]
  simp only
  rw [parseCh_cons, optBindSome]
  rw [readOctet_natRepr _ (Nat.mod_lt _ (by omega)) [] trivial, optBindSome]
  simp only
  congr 1
  have e24 : (2 : Nat) ^ 24 = 16777216 := by norm_num
  have e16 : (2 : Nat) ^ 16 = 65536 := by norm_num
  have e8 : (2 : Nat) ^ 8 = 256 := by norm_num
  have e32 : (2 : Nat) ^ 32 = 4294967296 := by norm_num
  rw [e24, e16, e8]
  rw [e32] at hv
  omega

theorem optBindNone {α β : Type} (f : α → Option β) :
    ((none : Option α) >>= f) = none := rfl

theorem readOctet_le (l : Str) (o : Nat) (rest : Str)
    (h : readOctet l = some (o, rest)) : o ≤ 255 := by
  unfold readOctet at h
  simp only at h
  split at h
  · exact Option.noConfusion h
  · split at h
    · exact Option.noConfusion h
    · split at h
      · exact Option.noConfusion h
      · rename_i hguard
        injection h with h2
        injection h2 with h3 _
        omega

theorem parse_ipv4_lt (s : Str) (t : Nat) (h : parse_ipv4 s = some t) : t < 2 ^ 32 := by
  unfold parse_ipv4 at h
  rcases hp : parse_ipv4Partial s with _ | pr
  · rw [hp] at h
    exact Option.noConfusion h
  · rw [hp] at h
    rcases pr with ⟨val, rest⟩
    cases rest with
    | cons c l =>
        simp only at h
        exact Option.noConfusion h
    | nil =>
        simp only at h
        injection h with h2
        subst h2
        unfold parse_ipv4Partial at hp
        rcases h1 : readOctet s with _ | ⟨a, l1⟩
        · rw [h1, optBindNone] at hp
          exact Option.noConfusion hp
        · rw [h1, optBindSome] at hp
          simp only at hp
          rcases h2 : parseCh '.' l1 with _ | l2
          · rw [h2, optBindNone] at hp
            exact Option.noConfusion hp
          · rw [h2, optBindSome] at hp
            rcases h3 : readOctet l2 with _ | ⟨b, l3⟩
            · rw [h3, optBindNone] at hp
              exact Option.noConfusion hp
            · rw [h3, optBindSome] at hp
              simp only at hp
              rcases h4 : parseCh '.' l3 with _ | l4
              · rw [h4, optBindNone] at hp
                exact Option.noConfusion hp
              · rw [h4, optBindSome] at hp
                rcases h5 : readOctet l4 with _ | ⟨c, l5⟩
                · rw [h5, optBindNone] at hp
                  exact Option.noConfusion hp
                · rw [h5, optBindSome] at hp
                  simp only at hp
                  rcases h6 : parseCh '.' l5 with _ | l6
                  · rw [h6, optBindNone] at hp
                    exact Option.noConfusion hp
                  · rw [h6, optBindSome] at hp
                    rcases h7 : readOctet l6 with _ | ⟨d, l7⟩
                    · rw [h7, optBindNone] at hp
                      exact Option.noConfusion hp
                    · rw [h7, optBindSome] at hp
                      simp only at hp
                      injection hp with hp2
                      injection hp2 with hv _
                      have ba := readOctet_le s a l1 h1
                      have bb := readOctet_le l2 b l3 h3
                      have bc := readOctet_le l4 c l5 h5
                      have bd := readOctet_le l6 d l7 h7
                      have e32 : (2 : Nat) ^ 32 = 4294967296 := by norm_num
                      rw [e32]
                      omega

/-- C3 amended: for Eq filters, the log_levels, ipv4 and uuids columns
(cells in their encodable ranges) return exactly the set of indices whose
canonical string form equals the canonical string form of the value; the
ipv6 and timestamps columns compare primitives exactly (for timestamps
this is millisecond equality, strictly finer than canonical-string
equality on sub-second cells); and the numbers column compares parsed
doubles with absolute difference below machine epsilon. -/
theorem c3_eq_filter_semantics (cols : PartialPayload) (v : Str) :
    (∀ data, cols.log_levels = some data → (∀ l ∈ data, l < 8) →
      filter_op cols "log_levels".data .Eq v =
        .ok (scan_strings (log_level_strings data) .Eq
          ((LogLevel.parse_level v).to_str))) ∧
    (∀ data t, cols.ipv4_addrs = some data → (∀ c ∈ data, c < 2 ^ 32) →
      parse_ipv4 v = some t →
      filter_op cols "ipv4".data .Eq v =
        .ok (scan_strings (data.map format_ipv4) .Eq (format_ipv4 t))) ∧
    (∀ data t, cols.uuids = some data → (∀ c ∈ data, c < 16 ^ 32) →
      parse_uuid v = some t →
      filter_op cols "uuids".data .Eq v =
        .ok (scan_strings (data.map format_uuid) .Eq (format_uuid t))) ∧
    (∀ data t, cols.ipv6_addrs = some data → parse_ipv6 v = some t →
      filter_op cols "ipv6".data .Eq v = .ok (scan_primitive data .Eq t)) ∧
    (∀ ts t, cols.timestamps = some ts → parse_query_timestamp v = .ok t →
      filter_op cols "timestamps".data .Eq v =
        .ok (scan_primitive ts.prepare_for_read .Eq t)) ∧
    (∀ data, cols.numbers = some data →
      filter_op cols "numbers".data .Eq v =
        .ok (scan_f64 data .Eq ((parseF64 v).getD ⟨0, 1⟩))) := by
  refine ⟨?_, ?_, ?_, ?_, ?_, ?_⟩
  · intro data hdata hcells
    have hct : name_to_type "log_levels".data = .ok ColumnType.LogLevels := by decide
    unfold filter_op
    rw [hct, exBindOk]
    simp only [read_raw_column, hdata]
    rw [← scan_eq_canonical data (fun l => (LogLevel.from_u8 l).to_str)
      (LogLevel.parse_level v).toU8
      (fun c hc he => logLevel_fmt_inj c (hcells c hc) _ (toU8_lt _) he)]
    rw [from_u8_toU8 (LogLevel.parse_level v)]
    rfl
  · intro data t hdata hcells hparse
    have hct : name_to_type "ipv4".data = .ok ColumnType.IPv4 := by decide
    have ht := parse_ipv4_lt v t hparse
    unfold filter_op
    rw [hct, exBindOk]
    simp only [read_raw_column, engineParseIpv4, hparse, exBindOk, hdata]
    rw [← scan_eq_canonical data format_ipv4 t (fun c hc he => by
      have h2 := congrArg parse_ipv4 he
      rw [parse_format_ipv4 c (hcells c hc), parse_format_ipv4 t ht] at h2
      injection h2)]
  · intro data t hdata hcells hparse
    have hct : name_to_type "uuids".data = .ok ColumnType.UUIDs := by decide
    have ht := parse_uuid_lt v t hparse
    unfold filter_op
    rw [hct, exBindOk]
    simp only [read_raw_column, engineParseUuid, hparse, exBindOk, hdata]
    rw [← scan_eq_canonical data format_uuid t
      (fun c hc he => format_uuid_inj c (hcells c hc) t ht he)]
  · intro data t hdata hparse
    have hct : name_to_type "ipv6".data = .ok ColumnType.IPv6 := by decide
    unfold filter_op
    rw [hct, exBindOk]
    simp only [read_raw_column, engineParseIpv6, hparse, exBindOk, hdata]
  · intro ts t hts hparse
    have hct : name_to_type "timestamps".data = .ok ColumnType.Timestamps := by decide
    unfold filter_op
    rw [hct, exBindOk]
    simp only [read_raw_column, hparse, exBindOk, hts]
  · intro data hdata
    have hct : name_to_type "numbers".data = .ok ColumnType.Numbers := by decide
    unfold filter_op
    rw [hct, exBindOk]
    simp only [read_raw_column, hdata]

theorem c3_eq_filter_semantics_witness :
    filter_op { log_levels := some [2, 4] } "log_levels".data .Eq "INFO".data =
      .ok (scan_strings (log_level_strings [2, 4]) .Eq
        ((LogLevel.parse_level "INFO".data).to_str)) ∧
    filter_op { ipv4_addrs := some [3232235777] } "ipv4".data .Eq "192.168.1.1".data =
      .ok (scan_strings ([3232235777].map format_ipv4) .Eq (format_ipv4 3232235777)) := by
  constructor
  · exact (c3_eq_filter_semantics { log_levels := some [2, 4] } "INFO".data).1
      [2, 4] rfl (by decide)
  · exact (c3_eq_filter_semantics { ipv4_addrs := some [3232235777] }
      "192.168.1.1".data).2.1 [3232235777] 3232235777 rfl (by decide) (by decide)

end AliceText
